import Mathlib

/-!
Hephaestus: status transition publisher and remote build orchestrator.

A shallow embedding of

* `pkg/controller/imagebuild/component/statusmessenger.go`
  (`StatusMessengerComponent.Reconcile`, `BuildObjectLink`),
* `pkg/buildkit/buildkit.go` (`RemoteClient.Cache`, `Build`, `solveWith`, `runSolve`),
* `pkg/config/config.go` (`Messaging`, `GenerateDefaults`),

together with a model of the image reference grammar of
`github.com/docker/distribution/reference`, which both files call.

Go `error` values are modelled by `GoError`; a Go function returning `error`
becomes a function returning an `Outcome` (or `Except GoError _`), and a run-time
panic is an outcome of its own.  Calls to collaborators (broker, object store,
context fetcher, build daemon, JSON encoder) are answered by an environment
record and are recorded, in program order, in the trace of the run.
-/

set_option maxRecDepth 100000

namespace Hephaestus

/-! ## Errors and outcomes -/

/-- Go `error` values: a leaf error, or an error produced by
`fmt.Errorf("<msg>: %w", cause)`. -/
inductive GoError where
  | base (msg : String)
  | wrap (msg : String) (cause : GoError)
  deriving DecidableEq, Repr

/-- Whether an error was produced by `fmt.Errorf(... %w ...)`. -/
def GoError.isWrapped : GoError → Bool
  | .base _ => false
  | .wrap _ _ => true

/-- How a call ends: `nil` error, a non-nil error, or a run-time panic. -/
inductive Outcome where
  | ok
  | error (err : GoError)
  | panic (msg : String)
  deriving DecidableEq, Repr

deriving instance DecidableEq for Except

/-! ## Image references (`github.com/docker/distribution/reference`) -/

namespace reference

def legacyDefaultDomain : String := "index.docker.io"
def defaultDomain : String := "docker.io"
def officialRepoName : String := "library"
def defaultTag : String := "latest"

/-- NameTotalLengthMax of the library. -/
def NameTotalLengthMax : Nat := 255

def isDigit (c : Char) : Bool := 48 ≤ c.toNat && c.toNat ≤ 57
def isLower (c : Char) : Bool := 97 ≤ c.toNat && c.toNat ≤ 122
def isUpper (c : Char) : Bool := 65 ≤ c.toNat && c.toNat ≤ 90
/-- The class `[a-z0-9]`. -/
def isLowerAlnum (c : Char) : Bool := isLower c || isDigit c
/-- The class `[a-zA-Z0-9]`. -/
def isAlnum (c : Char) : Bool := isLower c || isUpper c || isDigit c
/-- The class `\w`, that is `[0-9A-Za-z_]`. -/
def isWord (c : Char) : Bool := isAlnum c || c == '_'
/-- The class `[a-f0-9]`. -/
def isLowerHex (c : Char) : Bool := isDigit c || (97 ≤ c.toNat && c.toNat ≤ 102)

/-- States of the automaton of `nameComponentRegexp`:
`[a-z0-9]+(?:(?:[._]|__|[-]*)[a-z0-9]+)*`. -/
inductive CompState where
  | start | alnum | dot | us1 | us2 | dash | fail
  deriving DecidableEq, Repr

def compStep : CompState → Char → CompState
  | .start, c => if isLowerAlnum c then .alnum else .fail
  | .alnum, c =>
    if isLowerAlnum c then .alnum
    else if c == '.' then .dot
    else if c == '_' then .us1
    else if c == '-' then .dash
    else .fail
  | .dot, c => if isLowerAlnum c then .alnum else .fail
  | .us1, c => if isLowerAlnum c then .alnum else if c == '_' then .us2 else .fail
  | .us2, c => if isLowerAlnum c then .alnum else .fail
  | .dash, c => if isLowerAlnum c then .alnum else if c == '-' then .dash else .fail
  | .fail, _ => .fail

/-- Anchored match of `nameComponentRegexp`. -/
def matchNameComponent (cs : List Char) : Bool :=
  decide (cs.foldl compStep .start = .alnum)

/-- States of the automaton of `DomainRegexp`:
`domainComponent(\.domainComponent)*(:[0-9]+)?` with
`domainComponent = [a-zA-Z0-9]|[a-zA-Z0-9][a-zA-Z0-9-]*[a-zA-Z0-9]`. -/
inductive DomState where
  | start | alnum | dash | colon | port | fail
  deriving DecidableEq, Repr

def domStep : DomState → Char → DomState
  | .start, c => if isAlnum c then .alnum else .fail
  | .alnum, c =>
    if isAlnum c then .alnum
    else if c == '-' then .dash
    else if c == '.' then .start
    else if c == ':' then .colon
    else .fail
  | .dash, c => if isAlnum c then .alnum else if c == '-' then .dash else .fail
  | .colon, c => if isDigit c then .port else .fail
  | .port, c => if isDigit c then .port else .fail
  | .fail, _ => .fail

/-- Anchored match of `DomainRegexp`. -/
def matchDomain (cs : List Char) : Bool :=
  let s := cs.foldl domStep .start
  decide (s = .alnum) || decide (s = .port)

/-- Anchored match of `TagRegexp`, `[\w][\w.-]{0,127}`. -/
def matchTag : List Char → Bool
  | [] => false
  | c :: cs =>
    isWord c && cs.all (fun d => isWord d || d == '.' || d == '-') && decide (cs.length ≤ 127)

/-- Splits at the first occurrence of `sep`; `none` when `sep` does not occur
(`strings.IndexRune` returning `-1`). -/
def cut (sep : Char) : List Char → Option (List Char × List Char)
  | [] => none
  | c :: cs =>
    if c = sep then some ([], cs)
    else match cut sep cs with
      | none => none
      | some (a, b) => some (c :: a, b)

/-- Splits at the last occurrence of `sep`. -/
def cutLast (sep : Char) : List Char → Option (List Char × List Char)
  | [] => none
  | c :: cs =>
    match cutLast sep cs with
    | some (a, b) => some (c :: a, b)
    | none => if c = sep then some ([], cs) else none

/-- The pieces of a string between the occurrences of `sep` (`strings.Split`). -/
def splitOn (sep : Char) : List Char → List (List Char)
  | [] => [[]]
  | c :: cs =>
    if c = sep then [] :: splitOn sep cs
    else match splitOn sep cs with
      | [] => [[c]]
      | p :: ps => (c :: p) :: ps

/-- The digests accepted by `digest.Parse`: `sha256`, `sha384` or `sha512`, a colon,
and lower-case hex of the length of that algorithm. -/
def validDigest (cs : List Char) : Bool :=
  match cut ':' cs with
  | none => false
  | some (alg, hex) =>
    hex.all isLowerHex &&
      ((decide (alg = "sha256".toList) && decide (hex.length = 64)) ||
       (decide (alg = "sha384".toList) && decide (hex.length = 96)) ||
       (decide (alg = "sha512".toList) && decide (hex.length = 128)))

/-- The struct `reference` of the library: a repository (domain and path) with an
optional tag and an optional digest, the empty string standing for an absent part. -/
structure Named where
  domain : String
  path : String
  tag : String
  digest : String
  deriving DecidableEq, Repr

/-- The method `Named.Name()`: the repository name, without tag and digest. -/
def Named.Name (r : Named) : String :=
  if r.domain = "" then r.path else r.domain ++ "/" ++ r.path

/-- The method `Reference.String()`: name, then `:tag` and `@digest` when present. -/
def Named.String (r : Named) : String :=
  r.Name ++ (if r.tag = "" then "" else ":" ++ r.tag)
    ++ (if r.digest = "" then "" else "@" ++ r.digest)

def ErrReferenceInvalidFormat : GoError := .base "invalid reference format"
def ErrNameTooLong : GoError :=
  .base "repository name must not be more than 255 characters"
def ErrDigestInvalid : GoError := .base "invalid checksum digest"

/-- Splits a matched name into domain and path the way `anchoredNameRegexp` does:
the first piece is the domain when it matches `DomainRegexp` and at least one name
component follows, otherwise the whole name is the path.  `none` when the name
matches neither form. -/
def splitName (name : List Char) : Option (List Char × List Char) :=
  match splitOn '/' name with
  | [] => none
  | p :: ps =>
    if matchDomain p && !ps.isEmpty && ps.all matchNameComponent then
      some (p, (cut '/' name).elim [] Prod.snd)
    else if (p :: ps).all matchNameComponent then
      some ([], name)
    else none

/-- Function `reference.Parse`: match of `ReferenceRegexp`,
`^(name)(?::(tag))?(?:@(digest))?$`, followed by the length and digest checks. -/
def Parse (s : List Char) : Except GoError Named :=
  let (front, dig) : List Char × Option (List Char) :=
    match cut '@' s with
    | none => (s, none)
    | some (a, b) => (a, some b)
  let (name, tag) : List Char × Option (List Char) :=
    match cutLast ':' front with
    | none => (front, none)
    | some (a, b) => if b.contains '/' then (front, none) else (a, some b)
  match splitName name with
  | none => .error ErrReferenceInvalidFormat
  | some (dom, path) =>
    if !(tag.elim true matchTag) then .error ErrReferenceInvalidFormat
    else if dig == some [] then .error ErrReferenceInvalidFormat
    else if name.length > NameTotalLengthMax then .error ErrNameTooLong
    else if !(dig.elim true validDigest) then .error ErrDigestInvalid
    else .ok { domain := String.mk dom, path := String.mk path,
               tag := String.mk (tag.getD []), digest := String.mk (dig.getD []) }

/-- Function `splitDockerDomain` of the library. -/
def splitDockerDomain (name : List Char) : List Char × List Char :=
  let (domain, remainder) : List Char × List Char :=
    match cut '/' name with
    | none => (defaultDomain.toList, name)
    | some (a, b) =>
      if !(a.contains '.' || a.contains ':') && a ≠ "localhost".toList then
        (defaultDomain.toList, name)
      else (a, b)
  let domain := if domain = legacyDefaultDomain.toList then defaultDomain.toList else domain
  let remainder :=
    if domain = defaultDomain.toList && !remainder.contains '/' then
      officialRepoName.toList ++ '/' :: remainder
    else remainder
  (domain, remainder)

/-- Function `reference.ParseNormalizedNamed`: a familiar name is turned into a fully
qualified reference (default domain `docker.io`, `library/` for official images).
The lower-case test of the library compares with `strings.ToLower`; here it looks
for the letters `A`-`Z`, every other letter outside the grammar being rejected by
`Parse`.  Which error a malformed reference yields is not used by any statement
below. -/
def ParseNormalizedNamed (s : String) : Except GoError Named :=
  if s.toList.length = 64 && s.toList.all isLowerHex then
    .error (.base ("invalid repository name (" ++ s
      ++ "), cannot specify 64-byte hexadecimal strings"))
  else
    let (domain, remainder) := splitDockerDomain s.toList
    let remoteName := (cut ':' remainder).elim remainder Prod.fst
    if remoteName.any isUpper then
      .error (.base "invalid reference format: repository name must be lowercase")
    else Parse (domain ++ '/' :: remainder)

/-- Function `reference.TagNameOnly`: adds the default tag to a reference that has neither
a tag nor a digest. -/
def TagNameOnly (r : Named) : Named :=
  if r.tag = "" ∧ r.digest = "" then { r with tag := defaultTag } else r

end reference

/-! ## Configuration (`pkg/config/config.go`) -/

structure Logging where
  Development : Bool
  Encoder : String
  LogLevel : String
  StacktraceLevel : String
  deriving DecidableEq, Repr

structure Manager where
  HealthProbeAddr : String
  MetricsAddr : String
  WebhookPort : Int
  WatchNamespaces : List String
  EnableLeaderElection : Bool
  deriving DecidableEq, Repr

structure Buildkit where
  Labels : Option (List (String × String))
  Namespace : String
  DaemonPort : Int
  CACertPath : String
  CertPath : String
  KeyPath : String
  deriving DecidableEq, Repr

structure AMQPMessaging where
  URL : String
  Exchange : String
  Queue : String
  deriving DecidableEq, Repr

structure KafkaMessaging where
  Servers : List String
  Topic : String
  Partition : String
  deriving DecidableEq, Repr

/-- The struct `Messaging`; the pointer fields `AMQP` and `Kafka` are `none` when nil. -/
structure Messaging where
  Enabled : Bool
  AMQP : Option AMQPMessaging
  Kafka : Option KafkaMessaging
  deriving DecidableEq, Repr

structure Controller where
  Logging : Logging
  Manager : Manager
  Buildkit : Buildkit
  Messaging : Messaging
  ImageBuildMaxConcurrency : Int
  deriving DecidableEq, Repr

/-- Function `GenerateDefaults`: fields it does not mention keep their zero value. -/
def GenerateDefaults : Controller :=
  { Manager :=
      { HealthProbeAddr := ":8081", MetricsAddr := ":8080", WebhookPort := 9443,
        WatchNamespaces := [], EnableLeaderElection := false }
    Buildkit :=
      { Labels := some [("app", "buildkit")], Namespace := "default", DaemonPort := 1234,
        CACertPath := "", CertPath := "", KeyPath := "" }
    Logging := { Development := false, Encoder := "", LogLevel := "", StacktraceLevel := "" }
    Messaging := { Enabled := false, AMQP := none, Kafka := none }
    ImageBuildMaxConcurrency := 5 }

/-! ## API types (`pkg/api/hephaestus/v1`) -/

/-- Modelled from the spec: the type `hephv1.Phase` is declared outside the files at
hand; the code converts it with `string(...)`, so it is a string type. -/
abbrev Phase := String

/-- Modelled from the spec: the constant `hephv1.PhaseSucceeded`, the phase the spec
calls `Succeeded`. -/
def PhaseSucceeded : Phase := "Succeeded"

/-- An instant (`metav1.Time`). -/
abbrev Time := Nat

/-- Modelled from the spec: an element of `Status.Transitions`,
`PhaseTransition{PreviousPhase, Phase, OccurredAt, Processed}`; `OccurredAt` is a
pointer in the code (`transition.OccurredAt != nil`). -/
structure PhaseTransition where
  PreviousPhase : Phase
  Phase : Phase
  OccurredAt : Option Time
  Processed : Bool
  deriving DecidableEq, Repr

/-- Modelled from the spec: the broker overrides of an object, read by the code as
`obj.Spec.AMQPOverrides` with fields `ExchangeName` and `QueueName`. -/
structure ImageBuildAMQPOverrides where
  ExchangeName : String
  QueueName : String
  deriving DecidableEq, Repr

/-- Modelled from the spec: the fields of `Spec` the publisher reads. -/
structure ImageBuildSpec where
  Images : List String
  AMQPOverrides : Option ImageBuildAMQPOverrides
  deriving DecidableEq, Repr

structure ImageBuildStatus where
  Transitions : List PhaseTransition
  deriving DecidableEq, Repr

/-- Modelled from the spec: the `ImageBuild` object, with the fields the publisher
reads (`Name`, `Namespace`, `Annotations`, `Spec`, `Status.Transitions`). -/
structure ImageBuild where
  Name : String
  Namespace : String
  Annotations : List (String × String)
  Spec : ImageBuildSpec
  Status : ImageBuildStatus
  deriving DecidableEq, Repr

/-- The outbound message `hephv1.ImageBuildStatusTransitionMessage`. -/
structure ImageBuildStatusTransitionMessage where
  Name : String
  Annotations : List (String × String)
  ObjectLink : String
  PreviousPhase : Phase
  CurrentPhase : Phase
  OccurredAt : Time
  ImageURLs : List String
  deriving DecidableEq, Repr

/-- The struct `amqp.PublishOptions`.  `Body` holds the message whose JSON encoding
the code stores there; it is `none` until the first message is encoded. -/
structure PublishOptions where
  ExchangeName : String
  QueueName : String
  ContentType : String
  Body : Option ImageBuildStatusTransitionMessage
  deriving DecidableEq, Repr

set_option linter.dupNamespace false in
/-- One `jsonpatch.Operation`. -/
structure Operation where
  Operation : String
  Path : String
  Value : PhaseTransition
  deriving DecidableEq, Repr

structure GroupVersionKind where
  Group : String
  Version : String
  Kind : String
  deriving DecidableEq, Repr

/-- The method `GroupVersion().String()`. -/
def GroupVersionKind.groupVersionString (gvk : GroupVersionKind) : String :=
  if gvk.Group = "" then gvk.Version else gvk.Group ++ "/" ++ gvk.Version

/-! ## The status messenger (`statusmessenger.go`) -/

/-- The answers of the collaborators of `Reconcile`.  `some err` / `.error err` is a
failing call.  `Publish`, `Patch` and `Now` also receive the loop index at which
they are called, so that a collaborator may answer two calls differently. -/
structure Env where
  NewPublisher : String → Option GoError
  GVKForObject : Except GoError GroupVersionKind
  pathJoin : List String → String
  toLower : String → String
  Now : Nat → Time
  marshalMessage : ImageBuildStatusTransitionMessage → Option GoError
  Publish : Nat → PublishOptions → Option GoError
  marshalPatch : List Operation → Option GoError
  Patch : Nat → List Operation → Option GoError
  Close : Option GoError

/-- The steps of `Reconcile` that can fail, with the loop index they belong to. -/
inductive Step where
  | connect (url : String)
  | objectLink (idx : Nat)
  | parseImage (idx : Nat) (image : String)
  | marshalMessage (idx : Nat) (msg : ImageBuildStatusTransitionMessage)
  | publish (idx : Nat) (opts : PublishOptions)
  | generatePatch (idx : Nat) (ops : List Operation)
  | applyPatch (idx : Nat) (ops : List Operation)
  | close
  deriving DecidableEq, Repr

/-- A step that was executed, with the error it returned (`none` for nil). -/
structure Event where
  step : Step
  err : Option GoError
  deriving DecidableEq, Repr

/-- A run of `Reconcile`: the steps executed, in order, and how the call ended. -/
structure Run where
  trace : List Event
  result : Outcome
  deriving DecidableEq, Repr

def publishContentType : String := "application/json"

/-- Function `BuildObjectLink`. -/
def BuildObjectLink (env : Env) (obj : ImageBuild) : Except GoError String :=
  match env.GVKForObject with
  | .error err => .error err
  | .ok gvk =>
    .ok (env.pathJoin
      ["/apis", gvk.groupVersionString, "namespaces", obj.Namespace,
        env.toLower gvk.Kind, obj.Name])

/-- The formatting verb `%q` (quoting only; escapes are not modelled). -/
def quote (s : String) : String := "\"" ++ s ++ "\""

/-- The inner loop of `Reconcile` (lines 133-150): every image is parsed, the default
tag is added when there is none, and the string forms are collected in order; the
first image that does not parse ends the call. -/
def imageURLs (idx : Nat) : List String → List Event × Except GoError (List String)
  | [] => ([], .ok [])
  | image :: rest =>
    match reference.ParseNormalizedNamed image with
    | .error err =>
      ([⟨.parseImage idx image, some err⟩],
        .error (.wrap ("parsing image name " ++ quote image ++ " failed") err))
    | .ok named =>
      let named := reference.TagNameOnly named
      match imageURLs idx rest with
      | (evs, .error err) => (⟨.parseImage idx image, none⟩ :: evs, .error err)
      | (evs, .ok images) =>
        (⟨.parseImage idx image, none⟩ :: evs, .ok (named.String :: images))

/-- The path of the patch, `fmt.Sprintf("/status/transitions/%d", idx)`. -/
def transitionPath (idx : Nat) : String := "/status/transitions/" ++ toString idx

/-- The message built for a transition (lines 117-151), before it is encoded. -/
def transitionMessage (env : Env) (obj : ImageBuild) (objLink : String) (idx : Nat)
    (transition : PhaseTransition) :
    List Event × Except GoError ImageBuildStatusTransitionMessage :=
  let occurredAt := match transition.OccurredAt with
    | some t => t
    | none => env.Now idx
  let message : ImageBuildStatusTransitionMessage :=
    { Name := obj.Name, Annotations := obj.Annotations, ObjectLink := objLink,
      PreviousPhase := transition.PreviousPhase, CurrentPhase := transition.Phase,
      OccurredAt := occurredAt, ImageURLs := [] }
  if transition.Phase = PhaseSucceeded then
    match imageURLs idx obj.Spec.Images with
    | (evs, .error err) => (evs, .error err)
    | (evs, .ok images) => (evs, .ok { message with ImageURLs := images })
  else ([], .ok message)

/-- The JSON patch generated for the transition at `idx` (lines 177-184). -/
def transitionPatch (idx : Nat) (transition : PhaseTransition) : List Operation :=
  let transition := { transition with Processed := true }
  [{ Operation := "replace", Path := transitionPath idx, Value := transition }]

/-- The body of the loop of `Reconcile` for an unprocessed transition
(lines 101-207).  The object is read as it was handed to the call: the copy the
client writes back into `obj` after a patch is taken to agree with it. -/
def processTransition (env : Env) (obj : ImageBuild) (publishOpts : PublishOptions)
    (idx : Nat) (transition : PhaseTransition) : List Event × Except GoError Unit :=
  match BuildObjectLink env obj with
  | .error err => ([⟨.objectLink idx, some err⟩], .error err)
  | .ok objLink =>
    match transitionMessage env obj objLink idx transition with
    | (evs, .error err) => (⟨.objectLink idx, none⟩ :: evs, .error err)
    | (evs, .ok message) =>
      let pre := ⟨.objectLink idx, none⟩ :: evs
      match env.marshalMessage message with
      | some err => (pre ++ [⟨.marshalMessage idx message, some err⟩], .error err)
      | none =>
        let publishOpts := { publishOpts with Body := some message }
        match env.Publish idx publishOpts with
        | some err =>
          (pre ++ [⟨.marshalMessage idx message, none⟩, ⟨.publish idx publishOpts, some err⟩],
            .error err)
        | none =>
          let ops := transitionPatch idx transition
          match env.marshalPatch ops with
          | some err =>
            (pre ++ [⟨.marshalMessage idx message, none⟩, ⟨.publish idx publishOpts, none⟩,
                ⟨.generatePatch idx ops, some err⟩],
              .error (.wrap "could not generate transition patch" err))
          | none =>
            match env.Patch idx ops with
            | some err =>
              (pre ++ [⟨.marshalMessage idx message, none⟩, ⟨.publish idx publishOpts, none⟩,
                  ⟨.generatePatch idx ops, none⟩, ⟨.applyPatch idx ops, some err⟩],
                .error err)
            | none =>
              (pre ++ [⟨.marshalMessage idx message, none⟩, ⟨.publish idx publishOpts, none⟩,
                  ⟨.generatePatch idx ops, none⟩, ⟨.applyPatch idx ops, none⟩],
                .ok ())

/-- The loop `for idx, transition := range obj.Status.Transitions` (lines 96-208),
started at index `idx` on the remaining transitions. -/
def transitionsLoop (env : Env) (obj : ImageBuild) (publishOpts : PublishOptions) :
    Nat → List PhaseTransition → List Event × Except GoError Unit
  | _, [] => ([], .ok ())
  | idx, transition :: rest =>
    if transition.Processed then transitionsLoop env obj publishOpts (idx + 1) rest
    else
      match processTransition env obj publishOpts idx transition with
      | (evs, .error err) => (evs, .error err)
      | (evs, .ok ()) =>
        match transitionsLoop env obj publishOpts (idx + 1) rest with
        | (evs2, r) => (evs ++ evs2, r)

/-- The publish options of a call (lines 76-92): the configured exchange and queue,
replaced by the non-empty overrides of the object. -/
def publishOptions (amqp : AMQPMessaging) (obj : ImageBuild) : PublishOptions :=
  let publishOpts : PublishOptions :=
    { ExchangeName := amqp.Exchange, QueueName := amqp.Queue,
      ContentType := publishContentType, Body := none }
  match obj.Spec.AMQPOverrides with
  | none => publishOpts
  | some ov =>
    let publishOpts :=
      if ov.ExchangeName ≠ "" then { publishOpts with ExchangeName := ov.ExchangeName }
      else publishOpts
    if ov.QueueName ≠ "" then { publishOpts with QueueName := ov.QueueName }
    else publishOpts

/-- The method `StatusMessengerComponent.Reconcile`.  Line 45 reads `c.cfg.AMQP.URL`
before the `Enabled` check of line 48, so a nil `AMQP` section panics.  The
deferred `Close` runs on every return after the connection was opened; its error
is logged and not returned. -/
def Reconcile (env : Env) (cfg : Messaging) (obj : ImageBuild) : Run :=
  match cfg.AMQP with
  | none => ⟨[], .panic "invalid memory address or nil pointer dereference"⟩
  | some amqp =>
    if !cfg.Enabled then ⟨[], .ok⟩
    else
      match env.NewPublisher amqp.URL with
      | some err => ⟨[⟨.connect amqp.URL, some err⟩], .error err⟩
      | none =>
        match transitionsLoop env obj (publishOptions amqp obj) 0 obj.Status.Transitions with
        | (evs, .error err) =>
          ⟨⟨.connect amqp.URL, none⟩ :: evs ++ [⟨.close, env.Close⟩], .error err⟩
        | (evs, .ok ()) =>
          ⟨⟨.connect amqp.URL, none⟩ :: evs ++ [⟨.close, env.Close⟩], .ok⟩

/-! ### The object store

The API server that receives the patches is outside the program; what a patch does
to the stored transitions is the meaning of a JSON patch `replace` whose path is a
JSON pointer into `/status/transitions`.  The stored transitions start out equal to
those of the object handed to `Reconcile`; a patch that fails leaves them as they
are. -/

/-- Removes the leading part `pre` of a string, when it starts with it. -/
def stripLeading : List Char → List Char → Option (List Char)
  | [], cs => some cs
  | _ :: _, [] => none
  | p :: ps, c :: cs => if p = c then stripLeading ps cs else none

/-- The value of a string of decimal digits. -/
def decimalValue (cs : List Char) : Nat :=
  cs.foldl (fun acc c => 10 * acc + (c.toNat - 48)) 0

/-- The array index a JSON pointer `/status/transitions/<n>` addresses. -/
def pointerIndex (path : String) : Option Nat :=
  match stripLeading "/status/transitions/".toList path.toList with
  | none => none
  | some ds => if ds ≠ [] ∧ ds.all reference.isDigit then some (decimalValue ds) else none

/-- The effect of one patch operation on the stored transitions: a `replace` of an
existing element puts the value there, anything else leaves them as they are. -/
def applyOperation (stored : List PhaseTransition) (op : Operation) : List PhaseTransition :=
  match pointerIndex op.Path with
  | none => stored
  | some i => if op.Operation = "replace" ∧ i < stored.length then stored.set i op.Value else stored

/-- The stored transitions after a run: the patches that were accepted are applied
in the order in which they were sent. -/
def storedAfter (stored : List PhaseTransition) : List Event → List PhaseTransition
  | [] => stored
  | ⟨.applyPatch _ ops, none⟩ :: evs => storedAfter (ops.foldl applyOperation stored) evs
  | _ :: evs => storedAfter stored evs

/-- A broker or store effect of a run: a publish or a patch, the loop index it was
issued at, and whether it succeeded. -/
inductive Effect where
  | publish (idx : Nat) (ok : Bool)
  | patch (idx : Nat) (ok : Bool)
  deriving DecidableEq, Repr

/-- The publish and patch calls of a trace, in order. -/
def effects : List Event → List Effect
  | [] => []
  | ⟨.publish idx _, err⟩ :: evs => .publish idx err.isNone :: effects evs
  | ⟨.applyPatch idx _, err⟩ :: evs => .patch idx err.isNone :: effects evs
  | _ :: evs => effects evs

/-- The publish and patch calls of a run in which every step succeeds, for the given
indices: `publish i, patch i` for each index in turn. -/
def schedule : List Nat → List Effect
  | [] => []
  | i :: is => .publish i true :: .patch i true :: schedule is

/-- The unprocessed transitions, each with its index, counted from `idx`: the
iterations of the loop of `Reconcile` that do not `continue`. -/
def unprocessed : Nat → List PhaseTransition → List (Nat × PhaseTransition)
  | _, [] => []
  | idx, t :: ts =>
    if t.Processed then unprocessed (idx + 1) ts else (idx, t) :: unprocessed (idx + 1) ts

/-- Runs `body` on the given iterations in order, up to the first one that fails. -/
def runUntilError (body : Nat × PhaseTransition → List Event × Except GoError Unit) :
    List (Nat × PhaseTransition) → List Event × Except GoError Unit
  | [] => ([], .ok ())
  | p :: ps =>
    match body p with
    | (evs, .error err) => (evs, .error err)
    | (evs, .ok ()) =>
      match runUntilError body ps with
      | (evs2, r) => (evs ++ evs2, r)

/-- The error `Reconcile` returns when the given step fails with `err`: the image
parse and the patch generation wrap it, every other step returns it as it is. -/
def returnedError : Step → GoError → GoError
  | .parseImage _ image, err => .wrap ("parsing image name " ++ quote image ++ " failed") err
  | .generatePatch _ _, err => .wrap "could not generate transition patch" err
  | _, err => err

/-- The loop index a step belongs to; the connect and the close belong to none. -/
def Step.index : Step → Option Nat
  | .connect _ => none
  | .objectLink idx => some idx
  | .parseImage idx _ => some idx
  | .marshalMessage idx _ => some idx
  | .publish idx _ => some idx
  | .generatePatch idx _ => some idx
  | .applyPatch idx _ => some idx
  | .close => none

/-- The publish and patch calls of the iteration in which the given step fails. -/
def failTail : Step → List Effect
  | .publish idx _ => [.publish idx false]
  | .generatePatch idx _ => [.publish idx true]
  | .applyPatch idx _ => [.publish idx true, .patch idx false]
  | _ => []

/-- The stored transitions after the patches of the given iterations were applied. -/
def patchAll (stored : List PhaseTransition) (ps : List (Nat × PhaseTransition)) :
    List PhaseTransition :=
  ps.foldl (fun st p => (transitionPatch p.1 p.2).foldl applyOperation st) stored

/-- Every event of the list succeeded. -/
def allOk (evs : List Event) : Prop := ∀ ev ∈ evs, ev.err = none

/-- Every event of the list is the parse of an image at loop index `idx`. -/
def parsesAt (idx : Nat) (evs : List Event) : Prop :=
  ∀ ev ∈ evs, ∃ image, ev.step = .parseImage idx image

/-- The publish and patch calls of an iteration that fails: nothing, a failed
publish, a publish alone, or a publish and a failed patch. -/
def tailAt (k : Nat) (tail : List Effect) : Prop :=
  tail = [.publish k false] ∨ tail = [.publish k true] ∨
    tail = [.publish k true, .patch k false]

/-- The outcome of `Reconcile` after the loop: its error, or success. -/
def loopOutcome : Except GoError Unit → Outcome
  | .ok _ => .ok
  | .error err => .error err

/-- The run of the loop of `Reconcile` on an object, as iterations over its
unprocessed transitions. -/
def loopRun (env : Env) (amqp : AMQPMessaging) (obj : ImageBuild) :
    List Event × Except GoError Unit :=
  runUntilError (fun p => processTransition env obj (publishOptions amqp obj) p.1 p.2)
    (unprocessed 0 obj.Status.Transitions)

/-! ## The remote build client (`pkg/buildkit/buildkit.go`) -/

structure BuildOptions where
  Context : String
  Images : List String
  BuildArgs : List String
  DisableCacheExport : Bool
  DisableCacheImport : Bool
  deriving DecidableEq, Repr

/-- The constant `client.ExporterImage` of buildkit. -/
def ExporterImage : String := "image"
/-- The constant `client.ExporterOCI` of buildkit. -/
def ExporterOCI : String := "oci"

/-- The struct `client.ExportEntry` (`Typ` is its field `Type`); `Output` tells whether an output function (the
discarding writer of `Cache`) is set. -/
structure ExportEntry where
  Typ : String
  Attrs : List (String × String)
  Output : Bool
  deriving DecidableEq, Repr

structure CacheOptionsEntry where
  Typ : String
  Attrs : List (String × String)
  deriving DecidableEq, Repr

/-- The struct `client.SolveOpt`, the solve request; `Session` holds the
configuration directory of the credential provider attached to the session. -/
structure SolveOpt where
  Frontend : String
  FrontendAttrs : List (String × String)
  LocalDirs : List (String × String)
  Exports : List ExportEntry
  CacheExports : List CacheOptionsEntry
  CacheImports : List CacheOptionsEntry
  Session : List String
  deriving DecidableEq, Repr

/-- The answers of the collaborators of the build client: temporary directory
creation, context fetch, file write, and the solve (the error `eg.Wait()` returns
for the solve and its progress display). -/
structure BuildEnv where
  MkdirTemp : Except GoError String
  FetchAndExtract : String → String → Except GoError String
  WriteFile : String → String → Option GoError
  Solve : SolveOpt → Option GoError
  filepathJoin : String → String → String

/-- A run of `Build` or `Cache`: the solve requests handed to the daemon, the
directories removed by the deferred `os.RemoveAll`, and how the call ended. -/
structure BuildRun where
  submitted : List SolveOpt
  removed : List String
  result : Outcome
  deriving DecidableEq, Repr

/-- The method `runSolve`. -/
def runSolve (env : BuildEnv) (so : SolveOpt) : Outcome :=
  match env.Solve so with
  | some err => .error (.wrap "buildkit solve issue" err)
  | none => .ok

/-- The solve request `solveWith` starts from (lines 156-162). -/
def newSolveOpt (authConfig : String) : SolveOpt :=
  { Frontend := "dockerfile.v0", FrontendAttrs := [], LocalDirs := [], Exports := [],
    CacheExports := [], CacheImports := [], Session := [authConfig] }

/-- The method `solveWith`.  The closure `modify` changes the solve request through
a pointer: it returns the request as it left it, and how it ended. -/
def solveWith (env : BuildEnv) (authConfig : String)
    (modify : String → SolveOpt → SolveOpt × Outcome) : BuildRun :=
  match env.MkdirTemp with
  | .error err => ⟨[], [], .error (.wrap "failed to create build dir" err)⟩
  | .ok buildDir =>
    let solveOpt := newSolveOpt authConfig
    match modify buildDir solveOpt with
    | (_, .error err) => ⟨[], [buildDir], .error err⟩
    | (_, .panic msg) => ⟨[], [buildDir], .panic msg⟩
    | (solveOpt, .ok) => ⟨[solveOpt], [buildDir], runSolve env solveOpt⟩

/-- The export entry `Build` appends for an image (lines 112-118). -/
def pushExport (name : String) : ExportEntry :=
  { Typ := ExporterImage, Attrs := [("push", "true"), ("name", name)], Output := false }

/-- The closure of `Build` (lines 100-146).  `opts.Images[0]` of line 130 is read
without a length check: on an empty list it panics. -/
def buildModify (env : BuildEnv) (opts : BuildOptions) (buildDir : String)
    (solveOpt : SolveOpt) : SolveOpt × Outcome :=
  match env.FetchAndExtract opts.Context buildDir with
  | .error err => (solveOpt, .error err)
  | .ok contentsDir =>
    let solveOpt :=
      { solveOpt with LocalDirs := [("context", contentsDir), ("dockerfile", contentsDir)] }
    let solveOpt := opts.Images.foldl
      (fun so name => { so with Exports := so.Exports ++ [pushExport name] }) solveOpt
    let solveOpt :=
      if !opts.DisableCacheExport then
        { solveOpt with CacheExports := [{ Typ := "inline", Attrs := [] }] }
      else solveOpt
    if !opts.DisableCacheImport then
      match opts.Images with
      | [] => (solveOpt, .panic "index out of range [0] with length 0")
      | image :: _ =>
        match reference.ParseNormalizedNamed image with
        | .error err => (solveOpt, .error err)
        | .ok named =>
          ({ solveOpt with
              CacheImports := [{ Typ := "registry", Attrs := [("ref", named.Name)] }] }, .ok)
    else (solveOpt, .ok)

/-- The method `RemoteClient.Build`. -/
def Build (env : BuildEnv) (authConfig : String) (opts : BuildOptions) : BuildRun :=
  solveWith env authConfig (buildModify env opts)

/-- The closure of `Cache` (lines 75-96). -/
def cacheModify (env : BuildEnv) (image : String) (buildDir : String)
    (solveOpt : SolveOpt) : SolveOpt × Outcome :=
  let dockerfile := env.filepathJoin buildDir "Dockerfile"
  let contents := "FROM " ++ image
  match env.WriteFile dockerfile contents with
  | some err => (solveOpt, .error (.wrap "failed to create dockerfile" err))
  | none =>
    ({ solveOpt with
        LocalDirs := [("context", buildDir), ("dockerfile", buildDir)]
        Exports := [{ Typ := ExporterOCI, Attrs := [], Output := true }] }, .ok)

/-- The method `RemoteClient.Cache`. -/
def Cache (env : BuildEnv) (authConfig : String) (image : String) : BuildRun :=
  solveWith env authConfig (cacheModify env image)

/-! ## Sample inputs -/

/-- A configuration with messaging enabled and the AMQP section set. -/
def sampleCfg : Messaging :=
  { Enabled := true, AMQP := some ⟨"amqp://broker:5672", "hephaestus", "builds"⟩, Kafka := none }

/-- Three recorded transitions, none of them processed. -/
def sampleTransitions : List PhaseTransition :=
  [⟨"", "Initializing", some 10, false⟩, ⟨"Initializing", "Running", some 20, false⟩,
    ⟨"Running", "Succeeded", some 30, false⟩]

/-- An object with one image and the three sample transitions. -/
def sampleObj : ImageBuild :=
  { Name := "build-1", Namespace := "default", Annotations := [],
    Spec := { Images := ["myrepo/app"], AMQPOverrides := none },
    Status := ⟨sampleTransitions⟩ }

/-- Collaborators that always succeed. -/
def okEnv : Env :=
  { NewPublisher := fun _ => none
    GVKForObject := .ok ⟨"hephaestus.dominodatalab.com", "v1", "ImageBuild"⟩
    pathJoin := fun parts => "/".intercalate parts
    toLower := fun s => String.mk (s.toList.map Char.toLower)
    Now := fun _ => 0
    marshalMessage := fun _ => none
    Publish := fun _ _ => none
    marshalPatch := fun _ => none
    Patch := fun _ _ => none
    Close := none }

/-- Collaborators that succeed, except that the publish at loop index 2 fails. -/
def publishFailsAt2 : Env :=
  { okEnv with Publish := fun i _ => if i = 2 then some (.base "channel closed") else none }

/-- The sample object with a malformed image reference: a single transition to
`Succeeded`, not processed, and an image name with upper-case letters. -/
def malformedImageObj : ImageBuild :=
  { sampleObj with
    Spec := { Images := ["MyRepo/App"], AMQPOverrides := none }
    Status := ⟨[⟨"Running", "Succeeded", some 30, false⟩]⟩ }

/-- The message published for the third sample transition. -/
def sampleMessage2 : ImageBuildStatusTransitionMessage :=
  { Name := "build-1", Annotations := [],
    ObjectLink := "/apis/hephaestus.dominodatalab.com/v1/namespaces/default/imagebuild/build-1",
    PreviousPhase := "Running", CurrentPhase := "Succeeded", OccurredAt := 30,
    ImageURLs := ["docker.io/myrepo/app:latest"] }

/-- Build collaborators that always succeed. -/
def okBuildEnv : BuildEnv :=
  { MkdirTemp := .ok "/tmp/hephaestus-build-1"
    FetchAndExtract := fun _ dir => .ok (dir ++ "/contents")
    WriteFile := fun _ _ => none
    Solve := fun _ => none
    filepathJoin := fun a b => a ++ "/" ++ b }

/-- Collaborators of `Reconcile` whose broker connection fails. -/
def connectFails : Env :=
  { okEnv with NewPublisher := fun _ => some (.base "dial tcp: connection refused") }

/-- Build collaborators whose context fetch fails. -/
def fetchFails : BuildEnv :=
  { okBuildEnv with FetchAndExtract := fun _ _ => .error (.base "context fetch: 404") }

/-! ## Lemmas on traces -/

theorem effects_append (a b : List Event) : effects (a ++ b) = effects a ++ effects b := by
  induction a with
  | nil => rfl
  | cons ev a ih =>
    obtain ⟨step, err⟩ := ev
    cases step <;> simp [effects, ih]

theorem storedAfter_append (a b : List Event) (st : List PhaseTransition) :
    storedAfter st (a ++ b) = storedAfter (storedAfter st a) b := by
  induction a generalizing st with
  | nil => rfl
  | cons ev a ih =>
    obtain ⟨step, err⟩ := ev
    cases step <;> cases err <;> simp [storedAfter, ih]

theorem transitionsLoop_eq (env : Env) (obj : ImageBuild) (opts : PublishOptions)
    (idx : Nat) (ts : List PhaseTransition) :
    transitionsLoop env obj opts idx ts
      = runUntilError (fun p => processTransition env obj opts p.1 p.2) (unprocessed idx ts) := by
  induction ts generalizing idx with
  | nil => rfl
  | cons t ts ih =>
    by_cases h : t.Processed = true
    · simp [transitionsLoop, unprocessed, h, ih]
    · simp [transitionsLoop, unprocessed, h, runUntilError, ih]

theorem imageURLs_parsesAt (idx : Nat) (images : List String) :
    parsesAt idx (imageURLs idx images).1 := by
  induction images with
  | nil => intro ev h; simp [imageURLs] at h
  | cons image rest ih =>
    intro ev h
    unfold imageURLs at h
    cases hp : reference.ParseNormalizedNamed image with
    | error err =>
      simp [hp] at h
      exact ⟨image, by simp [h]⟩
    | ok named =>
      rcases hr : imageURLs idx rest with ⟨evs, r⟩
      rw [hr] at ih
      cases r <;> simp [hp, hr] at h <;> rcases h with h | h
      · exact ⟨image, by simp [h]⟩
      · exact ih ev h
      · exact ⟨image, by simp [h]⟩
      · exact ih ev h

theorem imageURLs_ok (idx : Nat) (images : List String) (evs : List Event)
    (urls : List String) (h : imageURLs idx images = (evs, .ok urls)) : allOk evs := by
  induction images generalizing evs urls with
  | nil =>
    simp [imageURLs] at h
    intro ev hev
    rw [h.1] at hev
    cases hev
  | cons image rest ih =>
    unfold imageURLs at h
    cases hp : reference.ParseNormalizedNamed image with
    | error err => simp [hp] at h
    | ok named =>
      rcases hr : imageURLs idx rest with ⟨evs2, r⟩
      cases r with
      | error e => simp [hp, hr] at h
      | ok urls2 =>
        simp [hp, hr] at h
        intro ev hev
        rw [← h.1] at hev
        rcases List.mem_cons.1 hev with h1 | h1
        · simp [h1]
        · exact ih evs2 urls2 hr ev h1

theorem imageURLs_error (idx : Nat) (images : List String) (evs : List Event)
    (e : GoError) (h : imageURLs idx images = (evs, .error e)) :
    ∃ pre image e0, evs = pre ++ [⟨.parseImage idx image, some e0⟩] ∧ allOk pre ∧
      parsesAt idx pre ∧ e = returnedError (.parseImage idx image) e0 := by
  induction images generalizing evs e with
  | nil => simp [imageURLs] at h
  | cons image rest ih =>
    unfold imageURLs at h
    cases hp : reference.ParseNormalizedNamed image with
    | error err =>
      simp [hp] at h
      refine ⟨[], image, err, by simp [h.1], by intro ev hev; simp at hev,
        by intro ev hev; simp at hev, by simp [returnedError, h.2]⟩
    | ok named =>
      rcases hr : imageURLs idx rest with ⟨evs2, r⟩
      cases r with
      | ok urls2 => simp [hp, hr] at h
      | error e2 =>
        simp [hp, hr] at h
        obtain ⟨pre, img, e0, h1, h2, h3, h4⟩ := ih evs2 e2 hr
        refine ⟨⟨.parseImage idx image, none⟩ :: pre, img, e0, by simp [← h.1, h1], ?_, ?_,
          by rw [← h.2, h4]⟩
        · intro ev hev
          rcases List.mem_cons.1 hev with h5 | h5
          · simp [h5]
          · exact h2 ev h5
        · intro ev hev
          rcases List.mem_cons.1 hev with h5 | h5
          · exact ⟨image, by simp [h5]⟩
          · exact h3 ev h5

theorem effects_of_parsesAt (idx : Nat) (evs : List Event) (h : parsesAt idx evs) :
    effects evs = [] := by
  induction evs with
  | nil => rfl
  | cons ev evs ih =>
    obtain ⟨image, h1⟩ := h ev (List.mem_cons_self _ _)
    obtain ⟨step, err⟩ := ev
    simp at h1
    subst h1
    simp [effects]
    exact ih (fun ev hev => h ev (List.mem_cons_of_mem _ hev))

theorem storedAfter_of_parsesAt (idx : Nat) (evs : List Event) (st : List PhaseTransition)
    (h : parsesAt idx evs) : storedAfter st evs = st := by
  induction evs with
  | nil => rfl
  | cons ev evs ih =>
    obtain ⟨image, h1⟩ := h ev (List.mem_cons_self _ _)
    obtain ⟨step, err⟩ := ev
    simp at h1
    subst h1
    simp [storedAfter]
    exact ih (fun ev hev => h ev (List.mem_cons_of_mem _ hev))

theorem transitionMessage_parsesAt (env : Env) (obj : ImageBuild) (link : String) (idx : Nat)
    (t : PhaseTransition) : parsesAt idx (transitionMessage env obj link idx t).1 := by
  unfold transitionMessage
  by_cases hs : t.Phase = PhaseSucceeded
  · have := imageURLs_parsesAt idx obj.Spec.Images
    rcases hr : imageURLs idx obj.Spec.Images with ⟨evs, r⟩
    rw [hr] at this
    cases r <;> simpa [hs, hr] using this
  · intro ev hev
    simp [hs] at hev

theorem transitionMessage_ok (env : Env) (obj : ImageBuild) (link : String) (idx : Nat)
    (t : PhaseTransition) (evs : List Event) (m : ImageBuildStatusTransitionMessage)
    (h : transitionMessage env obj link idx t = (evs, .ok m)) : allOk evs := by
  unfold transitionMessage at h
  by_cases hs : t.Phase = PhaseSucceeded
  · rcases hr : imageURLs idx obj.Spec.Images with ⟨evs2, r⟩
    cases r with
    | error e => simp [hs, hr] at h
    | ok urls =>
      simp [hs, hr] at h
      rw [← h.1]
      exact imageURLs_ok idx _ _ _ hr
  · simp [hs] at h
    intro ev hev
    rw [h.1] at hev
    cases hev

theorem transitionMessage_error (env : Env) (obj : ImageBuild) (link : String) (idx : Nat)
    (t : PhaseTransition) (evs : List Event) (e : GoError)
    (h : transitionMessage env obj link idx t = (evs, .error e)) :
    ∃ pre image e0, evs = pre ++ [⟨.parseImage idx image, some e0⟩] ∧ allOk pre ∧
      parsesAt idx pre ∧ e = returnedError (.parseImage idx image) e0 := by
  unfold transitionMessage at h
  by_cases hs : t.Phase = PhaseSucceeded
  · rcases hr : imageURLs idx obj.Spec.Images with ⟨evs2, r⟩
    cases r with
    | ok urls => simp [hs, hr] at h
    | error e2 =>
      simp [hs, hr] at h
      rw [← h.1, ← h.2]
      exact imageURLs_error idx _ _ _ hr
  · simp [hs] at h

/-- The seven ways the body of the loop can end, with the trace of each. -/
theorem processTransition_shape (env : Env) (obj : ImageBuild) (opts : PublishOptions)
    (i : Nat) (t : PhaseTransition) :
    (∃ e, processTransition env obj opts i t = ([⟨.objectLink i, some e⟩], .error e)) ∨
    ∃ pevs, parsesAt i pevs ∧ allOk pevs ∧
      ((∃ image e0, processTransition env obj opts i t
          = (⟨.objectLink i, none⟩ :: pevs ++ [⟨.parseImage i image, some e0⟩],
              .error (returnedError (.parseImage i image) e0))) ∨
       ∃ link m, BuildObjectLink env obj = .ok link ∧
          transitionMessage env obj link i t = (pevs, .ok m) ∧
        ((∃ e, processTransition env obj opts i t
            = (⟨.objectLink i, none⟩ :: pevs ++ [⟨.marshalMessage i m, some e⟩], .error e)) ∨
         (∃ e, processTransition env obj opts i t
            = (⟨.objectLink i, none⟩ :: pevs ++ [⟨.marshalMessage i m, none⟩,
                ⟨.publish i { opts with Body := some m }, some e⟩], .error e)) ∨
         (∃ e, processTransition env obj opts i t
            = (⟨.objectLink i, none⟩ :: pevs ++ [⟨.marshalMessage i m, none⟩,
                ⟨.publish i { opts with Body := some m }, none⟩,
                ⟨.generatePatch i (transitionPatch i t), some e⟩],
               .error (returnedError (.generatePatch i (transitionPatch i t)) e))) ∨
         (∃ e, processTransition env obj opts i t
            = (⟨.objectLink i, none⟩ :: pevs ++ [⟨.marshalMessage i m, none⟩,
                ⟨.publish i { opts with Body := some m }, none⟩,
                ⟨.generatePatch i (transitionPatch i t), none⟩,
                ⟨.applyPatch i (transitionPatch i t), some e⟩], .error e)) ∨
         (processTransition env obj opts i t
            = (⟨.objectLink i, none⟩ :: pevs ++ [⟨.marshalMessage i m, none⟩,
                ⟨.publish i { opts with Body := some m }, none⟩,
                ⟨.generatePatch i (transitionPatch i t), none⟩,
                ⟨.applyPatch i (transitionPatch i t), none⟩], .ok ())))) := by
  unfold processTransition
  cases hl : BuildObjectLink env obj with
  | error e => exact Or.inl ⟨e, rfl⟩
  | ok link =>
    right
    rcases hm : transitionMessage env obj link i t with ⟨evs, r⟩
    cases r with
    | error e =>
      obtain ⟨pre, image, e0, h1, h2, h3, h4⟩ := transitionMessage_error env obj link i t evs e hm
      exact ⟨pre, h3, h2, Or.inl ⟨image, e0, by simp [hm, h1, h4]⟩⟩
    | ok m =>
      have hp := transitionMessage_parsesAt env obj link i t
      rw [hm] at hp
      refine ⟨evs, hp, transitionMessage_ok env obj link i t evs m hm, Or.inr ⟨link, m, rfl, hm, ?_⟩⟩
      simp only [hm]
      cases h1 : env.marshalMessage m with
      | some e => exact Or.inl ⟨e, by simp [h1]⟩
      | none =>
        right
        cases h2 : env.Publish i { opts with Body := some m } with
        | some e => exact Or.inl ⟨e, by simp [h1, h2]⟩
        | none =>
          right
          cases h3 : env.marshalPatch (transitionPatch i t) with
          | some e => exact Or.inl ⟨e, by simp [h1, h2, h3, returnedError]⟩
          | none =>
            right
            cases h4 : env.Patch i (transitionPatch i t) with
            | some e => exact Or.inl ⟨e, by simp [h1, h2, h3, h4]⟩
            | none => exact Or.inr (by simp [h1, h2, h3, h4])

theorem processTransition_ok (env : Env) (obj : ImageBuild) (opts : PublishOptions)
    (i : Nat) (t : PhaseTransition) (evs : List Event)
    (h : processTransition env obj opts i t = (evs, .ok ())) :
    allOk evs ∧ effects evs = [.publish i true, .patch i true] ∧
      ∀ st, storedAfter st evs = (transitionPatch i t).foldl applyOperation st := by
  rcases processTransition_shape env obj opts i t with ⟨e, h1⟩ | ⟨pevs, hp, ha, h1⟩
  · rw [h1] at h; simp at h
  · rcases h1 with ⟨image, e0, h1⟩ | ⟨link, m, -, -, h1⟩
    · rw [h1] at h; simp at h
    · rcases h1 with ⟨e, h1⟩ | ⟨e, h1⟩ | ⟨e, h1⟩ | ⟨e, h1⟩ | h1 <;> rw [h1] at h <;>
        simp at h
      subst h
      refine ⟨?_, ?_, ?_⟩
      · intro ev hev
        simp at hev
        rcases hev with hev | hev | hev | hev | hev | hev
        · simp [hev]
        · exact ha ev hev
        all_goals simp [hev]
      · simp [effects, effects_append, effects_of_parsesAt i pevs hp]
      · intro st
        simp [storedAfter, storedAfter_append, storedAfter_of_parsesAt i pevs _ hp]

theorem processTransition_error (env : Env) (obj : ImageBuild) (opts : PublishOptions)
    (i : Nat) (t : PhaseTransition) (evs : List Event) (e : GoError)
    (h : processTransition env obj opts i t = (evs, .error e)) :
    ∃ init ev0 e0, evs = init ++ [ev0] ∧ allOk init ∧ ev0.err = some e0 ∧
      ev0.step.index = some i ∧ e = returnedError ev0.step e0 ∧
      effects evs = failTail ev0.step ∧ ∀ st, storedAfter st evs = st := by
  have hcons : ∀ (pevs : List Event) (more : List Event), allOk pevs → allOk more →
      allOk (⟨.objectLink i, none⟩ :: pevs ++ more) := by
    intro pevs more h1 h2 ev hev
    simp at hev
    rcases hev with hev | hev | hev
    · simp [hev]
    · exact h1 ev hev
    · exact h2 ev hev
  rcases processTransition_shape env obj opts i t with ⟨e1, h1⟩ | ⟨pevs, hp, ha, h1⟩
  · rw [h1] at h
    simp at h
    refine ⟨[], ⟨.objectLink i, some e1⟩, e1, by simp [h.1], ?_, rfl, rfl, by simp [returnedError, h.2],
      by simp [← h.1, effects, failTail], ?_⟩
    · intro ev hev; cases hev
    · intro st; simp [← h.1, storedAfter]
  · rcases h1 with ⟨image, e0, h1⟩ | ⟨link, m, -, -, h1⟩
    · rw [h1] at h
      simp at h
      refine ⟨⟨.objectLink i, none⟩ :: pevs, ⟨.parseImage i image, some e0⟩, e0, by simp [h.1], ?_,
        rfl, rfl, by simp [h.2], ?_, ?_⟩
      · simpa using hcons pevs [] ha (by intro ev hev; cases hev)
      · simp [← h.1, effects, effects_append, effects_of_parsesAt i pevs hp, failTail]
      · intro st
        simp [← h.1, storedAfter, storedAfter_append, storedAfter_of_parsesAt i pevs _ hp]
    · rcases h1 with ⟨e1, h1⟩ | ⟨e1, h1⟩ | ⟨e1, h1⟩ | ⟨e1, h1⟩ | h1 <;> rw [h1] at h <;>
        simp at h
      · refine ⟨⟨.objectLink i, none⟩ :: pevs, ⟨.marshalMessage i m, some e1⟩, e1, by simp [h.1],
          ?_, rfl, rfl, by simp [returnedError, h.2], ?_, ?_⟩
        · simpa using hcons pevs [] ha (by intro ev hev; cases hev)
        · simp [← h.1, effects, effects_append, effects_of_parsesAt i pevs hp, failTail]
        · intro st
          simp [← h.1, storedAfter, storedAfter_append, storedAfter_of_parsesAt i pevs _ hp]
      · refine ⟨⟨.objectLink i, none⟩ :: pevs ++ [⟨.marshalMessage i m, none⟩],
          ⟨.publish i { opts with Body := some m }, some e1⟩, e1, by simp [← h.1], ?_, rfl, rfl,
          by simp [returnedError, h.2], ?_, ?_⟩
        · exact hcons pevs _ ha (by intro ev hev; simp at hev; simp [hev])
        · simp [← h.1, effects, effects_append, effects_of_parsesAt i pevs hp, failTail]
        · intro st
          simp [← h.1, storedAfter, storedAfter_append, storedAfter_of_parsesAt i pevs _ hp]
      · refine ⟨⟨.objectLink i, none⟩ :: pevs ++ [⟨.marshalMessage i m, none⟩,
            ⟨.publish i { opts with Body := some m }, none⟩],
          ⟨.generatePatch i (transitionPatch i t), some e1⟩, e1, by simp [← h.1], ?_, rfl, rfl,
          by simp [h.2], ?_, ?_⟩
        · exact hcons pevs _ ha (by intro ev hev; simp at hev; rcases hev with hev | hev <;> simp [hev])
        · simp [← h.1, effects, effects_append, effects_of_parsesAt i pevs hp, failTail]
        · intro st
          simp [← h.1, storedAfter, storedAfter_append, storedAfter_of_parsesAt i pevs _ hp]
      · refine ⟨⟨.objectLink i, none⟩ :: pevs ++ [⟨.marshalMessage i m, none⟩,
            ⟨.publish i { opts with Body := some m }, none⟩,
            ⟨.generatePatch i (transitionPatch i t), none⟩],
          ⟨.applyPatch i (transitionPatch i t), some e1⟩, e1, by simp [← h.1], ?_, rfl, rfl,
          by simp [returnedError, h.2], ?_, ?_⟩
        · exact hcons pevs _ ha
            (by intro ev hev; simp at hev; rcases hev with hev | hev | hev <;> simp [hev])
        · simp [← h.1, effects, effects_append, effects_of_parsesAt i pevs hp, failTail]
        · intro st
          simp [← h.1, storedAfter, storedAfter_append, storedAfter_of_parsesAt i pevs _ hp]

theorem allOk_append (a b : List Event) (ha : allOk a) (hb : allOk b) : allOk (a ++ b) := by
  intro ev hev
  rcases List.mem_append.1 hev with h | h
  · exact ha ev h
  · exact hb ev h

/-- The loop either runs every iteration with success, or stops in the first
iteration in which a step fails; that step is the last event of the trace. -/
theorem runUntilError_shape (env : Env) (obj : ImageBuild) (opts : PublishOptions)
    (ps : List (Nat × PhaseTransition)) :
    ((runUntilError (fun p => processTransition env obj opts p.1 p.2) ps).2 = .ok () ∧
      allOk (runUntilError (fun p => processTransition env obj opts p.1 p.2) ps).1 ∧
      effects (runUntilError (fun p => processTransition env obj opts p.1 p.2) ps).1
        = schedule (ps.map Prod.fst) ∧
      ∀ st, storedAfter st (runUntilError (fun p => processTransition env obj opts p.1 p.2) ps).1
        = patchAll st ps) ∨
    ∃ done p rest init ev0 e0, ps = done ++ p :: rest ∧
      (runUntilError (fun p => processTransition env obj opts p.1 p.2) ps).1 = init ++ [ev0] ∧
      allOk init ∧ ev0.err = some e0 ∧ ev0.step.index = some p.1 ∧
      (runUntilError (fun p => processTransition env obj opts p.1 p.2) ps).2
        = .error (returnedError ev0.step e0) ∧
      effects (runUntilError (fun p => processTransition env obj opts p.1 p.2) ps).1
        = schedule (done.map Prod.fst) ++ failTail ev0.step ∧
      ∀ st, storedAfter st (runUntilError (fun p => processTransition env obj opts p.1 p.2) ps).1
        = patchAll st done := by
  induction ps with
  | nil =>
    left
    refine ⟨rfl, ?_, rfl, fun st => rfl⟩
    intro ev hev
    simp [runUntilError] at hev
  | cons p ps ih =>
    rcases hb : processTransition env obj opts p.1 p.2 with ⟨evs, r⟩
    cases r with
    | error e =>
      right
      obtain ⟨init, ev0, e0, h1, h2, h3, h4, h5, h6, h7⟩ :=
        processTransition_error env obj opts p.1 p.2 evs e hb
      refine ⟨[], p, ps, init, ev0, e0, rfl, by simp [runUntilError, hb, h1], h2, h3, h4,
        by simp [runUntilError, hb, h5], by simp [runUntilError, hb, h6, schedule], ?_⟩
      intro st
      simp [runUntilError, hb, h7, patchAll]
    | ok u =>
      obtain ⟨h1, h2, h3⟩ := processTransition_ok env obj opts p.1 p.2 evs hb
      rcases hr : runUntilError (fun p => processTransition env obj opts p.1 p.2) ps with ⟨evs2, r2⟩
      rw [hr] at ih
      rcases ih with ⟨i1, i2, i3, i4⟩ | ⟨done, q, rest, init, ev0, e0, i1, i2, i3, i4, i5, i6, i7, i8⟩
      · left
        simp only at i1 i2 i3 i4
        refine ⟨by simp [runUntilError, hb, hr, i1], ?_, ?_, ?_⟩
        · simp only [runUntilError, hb, hr]
          exact allOk_append _ _ h1 i2
        · simp [runUntilError, hb, hr, effects_append, h2, i3, schedule]
        · intro st
          simp [runUntilError, hb, hr, storedAfter_append, h3, i4, patchAll]
      · right
        simp only at i2 i6 i7 i8
        refine ⟨p :: done, q, rest, evs ++ init, ev0, e0, by simp [i1],
          by simp [runUntilError, hb, hr, i2], allOk_append _ _ h1 i3, i4, i5,
          by simp [runUntilError, hb, hr, i6], ?_, ?_⟩
        · simp [runUntilError, hb, hr, effects_append, h2, i7, schedule]
        · intro st
          simp [runUntilError, hb, hr, storedAfter_append, h3, i8, patchAll]

/-! ## Lemmas on the patch path and the store -/

theorem digitChar_spec (d : Nat) (h : d < 10) :
    reference.isDigit (Nat.digitChar d) = true ∧ (Nat.digitChar d).toNat - 48 = d := by
  interval_cases d <;> decide

theorem toDigitsCore_value (fuel : Nat) : ∀ n ds, n < fuel →
    (Nat.toDigitsCore 10 fuel n ds).foldl (fun acc c => 10 * acc + (c.toNat - 48)) 0
      = ds.foldl (fun acc c => 10 * acc + (c.toNat - 48)) n := by
  induction fuel with
  | zero => intro n ds h; omega
  | succ fuel ih =>
    intro n ds h
    unfold Nat.toDigitsCore
    have hd := (digitChar_spec (n % 10) (Nat.mod_lt _ (by decide))).2
    by_cases h0 : n / 10 = 0
    · simp [h0, hd]
      congr 1
      omega
    · simp only [h0, if_false]
      rw [ih (n / 10) _ (by omega)]
      simp [hd]
      congr 1
      omega

theorem toDigitsCore_digits (fuel : Nat) : ∀ n ds, ds.all reference.isDigit = true →
    (Nat.toDigitsCore 10 fuel n ds).all reference.isDigit = true := by
  induction fuel with
  | zero => intro n ds h; simpa [Nat.toDigitsCore] using h
  | succ fuel ih =>
    intro n ds h
    unfold Nat.toDigitsCore
    have hd := (digitChar_spec (n % 10) (Nat.mod_lt _ (by decide))).1
    by_cases h0 : n / 10 = 0
    · simp only [h0, if_true]
      simp [hd]
      simpa using h
    · simp only [h0, if_false]
      apply ih
      simp [hd]
      simpa using h

theorem toDigitsCore_ne_nil_of_acc (fuel : Nat) : ∀ n ds, ds ≠ [] →
    Nat.toDigitsCore 10 fuel n ds ≠ [] := by
  induction fuel with
  | zero => intro n ds h; simpa [Nat.toDigitsCore] using h
  | succ fuel ih =>
    intro n ds _
    unfold Nat.toDigitsCore
    by_cases h0 : n / 10 = 0
    · simp [h0]
    · simp only [h0, if_false]
      exact ih _ _ (by simp)

theorem toDigits_ne_nil (n : Nat) : Nat.toDigits 10 n ≠ [] := by
  unfold Nat.toDigits Nat.toDigitsCore
  by_cases h0 : n / 10 = 0
  · simp [h0]
  · simp only [h0, if_false]
    exact toDigitsCore_ne_nil_of_acc _ _ _ (by simp)

theorem stripLeading_append (pre cs : List Char) : stripLeading pre (pre ++ cs) = some cs := by
  induction pre with
  | nil => cases cs <;> rfl
  | cons p ps ih => simp [stripLeading, ih]

/-- The path of the patch for index `i` addresses element `i` of the transitions. -/
theorem pointerIndex_transitionPath (i : Nat) : pointerIndex (transitionPath i) = some i := by
  have h1 : (transitionPath i).toList = "/status/transitions/".toList ++ Nat.toDigits 10 i := by
    simp [transitionPath]
    rfl
  unfold pointerIndex
  rw [h1, stripLeading_append]
  have h2 : (Nat.toDigits 10 i).all reference.isDigit = true :=
    toDigitsCore_digits _ _ _ (by simp)
  have h3 : decimalValue (Nat.toDigits 10 i) = i := by
    unfold decimalValue Nat.toDigits
    rw [toDigitsCore_value _ _ _ (by omega)]
    rfl
  simp only [h3]
  rw [if_pos ⟨toDigits_ne_nil i, h2⟩]

/-- Applying the patch generated for index `i` writes the transition, marked
processed, at position `i` of the stored list and nowhere else. -/
theorem apply_transitionPatch (st : List PhaseTransition) (i : Nat) (t : PhaseTransition) :
    (transitionPatch i t).foldl applyOperation st = st.set i { t with Processed := true } := by
  simp only [transitionPatch, List.foldl, applyOperation, pointerIndex_transitionPath]
  by_cases h : i < st.length
  · simp [h]
  · simp [h]
    rw [List.set_eq_of_length_le (by omega)]

theorem unprocessed_mem (idx : Nat) (ts : List PhaseTransition) (i : Nat) (t : PhaseTransition) :
    (i, t) ∈ unprocessed idx ts ↔ idx ≤ i ∧ ts[i - idx]? = some t ∧ t.Processed = false := by
  induction ts generalizing idx with
  | nil => simp [unprocessed]
  | cons x ts ih =>
    unfold unprocessed
    by_cases hx : x.Processed = true
    · simp only [hx, if_true, ih]
      constructor
      · rintro ⟨h1, h2, h3⟩
        refine ⟨by omega, ?_, h3⟩
        have : i - idx = (i - (idx + 1)) + 1 := by omega
        rw [this]
        simpa using h2
      · rintro ⟨h1, h2, h3⟩
        by_cases he : i = idx
        · subst he
          simp at h2
          rw [h2] at hx
          rw [hx] at h3
          cases h3
        · refine ⟨by omega, ?_, h3⟩
          have : i - idx = (i - (idx + 1)) + 1 := by omega
          rw [this] at h2
          simpa using h2
    · have hx2 : x.Processed = false := by simpa using hx
      simp only [hx2, Bool.false_eq_true, if_false, List.mem_cons, ih, Prod.mk.injEq]
      constructor
      · rintro (⟨h1, h2⟩ | ⟨h1, h2, h3⟩)
        · subst h1 h2
          simp [hx2]
        · refine ⟨by omega, ?_, h3⟩
          have : i - idx = (i - (idx + 1)) + 1 := by omega
          rw [this]
          simpa using h2
      · rintro ⟨h1, h2, h3⟩
        by_cases he : i = idx
        · subst he
          simp at h2
          exact Or.inl ⟨rfl, h2.symm⟩
        · right
          refine ⟨by omega, ?_, h3⟩
          have : i - idx = (i - (idx + 1)) + 1 := by omega
          rw [this] at h2
          simpa using h2

theorem unprocessed_sorted (idx : Nat) (ts : List PhaseTransition) :
    ((unprocessed idx ts).map Prod.fst).Pairwise (· < ·) := by
  induction ts generalizing idx with
  | nil => simp [unprocessed]
  | cons x ts ih =>
    unfold unprocessed
    by_cases hx : x.Processed = true
    · simpa [hx] using ih (idx + 1)
    · have hx2 : x.Processed = false := by simpa using hx
      simp only [hx2, Bool.false_eq_true, if_false, List.map_cons, List.pairwise_cons]
      refine ⟨?_, ih (idx + 1)⟩
      intro j hj
      obtain ⟨⟨j2, t⟩, hm, rfl⟩ := List.mem_map.1 hj
      have := (unprocessed_mem (idx + 1) ts j2 t).1 hm
      simp only
      omega

theorem patchAll_cons (st : List PhaseTransition) (p : Nat × PhaseTransition)
    (ps : List (Nat × PhaseTransition)) :
    patchAll st (p :: ps) = patchAll (st.set p.1 { p.2 with Processed := true }) ps := by
  simp [patchAll, apply_transitionPatch]

theorem patchAll_length (st : List PhaseTransition) (ps : List (Nat × PhaseTransition)) :
    (patchAll st ps).length = st.length := by
  induction ps generalizing st with
  | nil => rfl
  | cons p ps ih => rw [patchAll_cons, ih, List.length_set]

theorem patchAll_getElem_of_not_mem (st : List PhaseTransition)
    (ps : List (Nat × PhaseTransition)) (i : Nat) (h : ∀ p ∈ ps, p.1 ≠ i) :
    (patchAll st ps)[i]? = st[i]? := by
  induction ps generalizing st with
  | nil => rfl
  | cons p ps ih =>
    rw [patchAll_cons, ih _ (fun q hq => h q (List.mem_cons_of_mem _ hq))]
    exact List.getElem?_set_ne (h p (List.mem_cons_self _ _))

theorem patchAll_getElem_of_mem (st : List PhaseTransition)
    (ps : List (Nat × PhaseTransition)) (i : Nat) (t : PhaseTransition)
    (hnd : (ps.map Prod.fst).Pairwise (· < ·)) (hm : (i, t) ∈ ps) (hi : i < st.length) :
    (patchAll st ps)[i]? = some { t with Processed := true } := by
  induction ps generalizing st with
  | nil => cases hm
  | cons p ps ih =>
    rw [patchAll_cons]
    simp only [List.map_cons, List.pairwise_cons] at hnd
    rcases List.mem_cons.1 hm with h | h
    · subst h
      rw [patchAll_getElem_of_not_mem]
      · simp [hi]
      · intro q hq
        have := hnd.1 q.1 (List.mem_map_of_mem _ hq)
        simp only at this ⊢
        omega
    · exact ih _ hnd.2 h (by simpa using hi)

/-! ## Lemmas on schedules -/

theorem failTail_forms (step : Step) (k : Nat) (h : step.index = some k) :
    failTail step = [] ∨ tailAt k (failTail step) := by
  cases step <;> simp [Step.index] at h <;> subst h <;> simp [failTail, tailAt]

theorem schedule_patch_split (done : List Nat) (tail pre post : List Effect) (i : Nat)
    (ok : Bool) (ht : tail = [] ∨ ∃ k, tailAt k tail)
    (h : schedule done ++ tail = pre ++ .patch i ok :: post) :
    ∃ pre', pre = pre' ++ [.publish i true] := by
  induction done generalizing pre with
  | nil =>
    simp only [schedule, List.nil_append] at h
    rcases ht with ht | ⟨k, ht | ht | ht⟩ <;> subst ht
    · simp at h
    · rcases pre with _ | ⟨x, pre⟩ <;> simp at h
    · rcases pre with _ | ⟨x, pre⟩ <;> simp at h
    · rcases pre with _ | ⟨x, _ | ⟨y, pre⟩⟩ <;> simp at h
      obtain ⟨h1, h2, -⟩ := h
      subst h1
      exact ⟨[], by simp [h2]⟩
  | cons d ds ih =>
    simp only [schedule, List.cons_append] at h
    rcases pre with _ | ⟨x, _ | ⟨y, pre⟩⟩
    · simp at h
    · simp at h
      exact ⟨[], by simp [← h.1, h.2.1.1]⟩
    · simp at h
      obtain ⟨pre', hp⟩ := ih pre h.2.2
      exact ⟨x :: y :: pre', by simp [hp]⟩

theorem schedule_publish_split (done rest : List Nat) (tail pre post : List Effect) (j : Nat)
    (ok : Bool) (ht : tail = [] ∨ ∃ k rest', rest = k :: rest' ∧ tailAt k tail)
    (h : schedule done ++ tail = pre ++ .publish j ok :: post) :
    ∃ d1 d2, done ++ rest = d1 ++ j :: d2 ∧ pre = schedule d1 := by
  induction done generalizing pre with
  | nil =>
    simp only [schedule, List.nil_append] at h
    rcases ht with ht | ⟨k, rest', hr, ht | ht | ht⟩ <;> subst ht
    · simp at h
    · rcases pre with _ | ⟨x, pre⟩ <;> simp at h
      exact ⟨[], rest', by simp [hr, h.1], rfl⟩
    · rcases pre with _ | ⟨x, pre⟩ <;> simp at h
      exact ⟨[], rest', by simp [hr, h.1], rfl⟩
    · rcases pre with _ | ⟨x, _ | ⟨y, pre⟩⟩ <;> simp at h
      exact ⟨[], rest', by simp [hr, h.1], rfl⟩
  | cons d ds ih =>
    simp only [schedule, List.cons_append] at h
    rcases pre with _ | ⟨x, _ | ⟨y, pre⟩⟩
    · simp at h
      exact ⟨[], ds ++ rest, by simp [h.1], rfl⟩
    · simp at h
    · simp at h
      obtain ⟨d1, d2, h1, h2⟩ := ih pre h.2.2
      exact ⟨d :: d1, d2, by simp [h1], by simp [schedule, h.1, h.2.1, h2]⟩

theorem schedule_mem_split (d1 : List Nat) (i : Nat) (h : i ∈ d1) :
    ∃ a b, schedule d1 = a ++ .publish i true :: .patch i true :: b := by
  induction d1 with
  | nil => cases h
  | cons d ds ih =>
    rcases List.mem_cons.1 h with h | h
    · subst h
      exact ⟨[], schedule ds, rfl⟩
    · obtain ⟨a, b, hab⟩ := ih h
      exact ⟨.publish d true :: .patch d true :: a, b, by simp [schedule, hab]⟩

theorem mem_before_of_sorted (d1 d2 : List Nat) (i j : Nat)
    (hs : (d1 ++ j :: d2).Pairwise (· < ·)) (hi : i ∈ d1 ++ j :: d2) (hlt : i < j) : i ∈ d1 := by
  rw [List.pairwise_append] at hs
  obtain ⟨-, h2, -⟩ := hs
  rw [List.pairwise_cons] at h2
  rcases List.mem_append.1 hi with h | h
  · exact h
  · rcases List.mem_cons.1 h with h | h
    · omega
    · have := h2.1 i h
      omega

/-! ## The four ways a call of `Reconcile` runs -/

theorem Reconcile_cases (env : Env) (cfg : Messaging) (obj : ImageBuild) :
    (cfg.AMQP = none ∧ Reconcile env cfg obj
        = ⟨[], .panic "invalid memory address or nil pointer dereference"⟩) ∨
    (∃ amqp, cfg.AMQP = some amqp ∧ cfg.Enabled = false ∧ Reconcile env cfg obj = ⟨[], .ok⟩) ∨
    (∃ amqp e, cfg.AMQP = some amqp ∧ cfg.Enabled = true ∧ env.NewPublisher amqp.URL = some e ∧
        Reconcile env cfg obj = ⟨[⟨.connect amqp.URL, some e⟩], .error e⟩) ∨
    (∃ amqp, cfg.AMQP = some amqp ∧ cfg.Enabled = true ∧ env.NewPublisher amqp.URL = none ∧
        Reconcile env cfg obj
          = ⟨⟨.connect amqp.URL, none⟩ :: (loopRun env amqp obj).1 ++ [⟨.close, env.Close⟩],
              loopOutcome (loopRun env amqp obj).2⟩) := by
  unfold Reconcile
  cases ha : cfg.AMQP with
  | none => exact Or.inl ⟨rfl, rfl⟩
  | some amqp =>
    right
    cases he : cfg.Enabled with
    | false => exact Or.inl ⟨amqp, rfl, rfl, by simp⟩
    | true =>
      right
      cases hc : env.NewPublisher amqp.URL with
      | some e => exact Or.inl ⟨amqp, e, rfl, rfl, hc, by simp [hc]⟩
      | none =>
        right
        refine ⟨amqp, rfl, rfl, hc, ?_⟩
        simp only [Bool.not_true, Bool.false_eq_true, if_false, transitionsLoop_eq, loopRun, hc]
        rcases runUntilError (fun p => processTransition env obj (publishOptions amqp obj) p.1 p.2)
          (unprocessed 0 obj.Status.Transitions) with ⟨evs, r⟩
        cases r <;> simp [loopOutcome]

theorem effects_connected (url : String) (evs : List Event) (c : Option GoError) :
    effects (⟨.connect url, none⟩ :: evs ++ [⟨.close, c⟩]) = effects evs := by
  simp [effects, effects_append]

theorem storedAfter_connected (url : String) (evs : List Event) (c : Option GoError)
    (st : List PhaseTransition) :
    storedAfter st (⟨.connect url, none⟩ :: evs ++ [⟨.close, c⟩]) = storedAfter st evs := by
  simp [storedAfter, storedAfter_append]

/-- Claim C1.  In every run of `Reconcile` with messaging enabled the publish and patch
calls are `publish i1, patch i1, publish i2, patch i2, ...` over a leading part
`done` of the indices of the unprocessed transitions in stored (increasing) order,
all of them successful, followed by at most the calls of the one iteration that
failed (a failed publish, a publish whose patch was not generated, or a publish and
a failed patch).  Hence a patch for `i` comes right after the successful publish
for `i`, and before a publish for `j` every unprocessed `i < j` was published and
patched with success. -/
theorem reconcile_effects_in_stored_order (env : Env) (cfg : Messaging) (obj : ImageBuild)
    (hen : cfg.Enabled = true) :
    ∃ done rest tail,
      (unprocessed 0 obj.Status.Transitions).map Prod.fst = done ++ rest ∧
      effects (Reconcile env cfg obj).trace = schedule done ++ tail ∧
      (tail = [] ∨ ∃ k rest', rest = k :: rest' ∧ tailAt k tail) ∧
      (done ++ rest).Pairwise (· < ·) ∧
      (∀ i, i ∈ done ++ rest ↔
        ∃ t, obj.Status.Transitions[i]? = some t ∧ t.Processed = false) ∧
      (∀ pre post i ok, effects (Reconcile env cfg obj).trace = pre ++ .patch i ok :: post →
        ∃ pre', pre = pre' ++ [.publish i true]) ∧
      (∀ pre post j ok, effects (Reconcile env cfg obj).trace = pre ++ .publish j ok :: post →
        ∀ i ∈ done ++ rest, i < j →
          ∃ a b, pre = a ++ .publish i true :: .patch i true :: b) := by
  have hsorted := unprocessed_sorted 0 obj.Status.Transitions
  have hmem : ∀ i, i ∈ (unprocessed 0 obj.Status.Transitions).map Prod.fst ↔
      ∃ t, obj.Status.Transitions[i]? = some t ∧ t.Processed = false := by
    intro i
    constructor
    · intro h
      obtain ⟨⟨j, t⟩, h1, rfl⟩ := List.mem_map.1 h
      exact ⟨t, by simpa using ((unprocessed_mem 0 _ j t).1 h1).2⟩
    · rintro ⟨t, h1, h2⟩
      exact List.mem_map.2 ⟨(i, t), (unprocessed_mem 0 _ i t).2 ⟨Nat.zero_le _, by simpa using h1, h2⟩, rfl⟩
  -- the shape of the effects
  have key : ∃ done rest tail,
      (unprocessed 0 obj.Status.Transitions).map Prod.fst = done ++ rest ∧
      effects (Reconcile env cfg obj).trace = schedule done ++ tail ∧
      (tail = [] ∨ ∃ k rest', rest = k :: rest' ∧ tailAt k tail) := by
    rcases Reconcile_cases env cfg obj with ⟨-, h⟩ | ⟨amqp, -, h1, -⟩ | ⟨amqp, e, -, -, -, h⟩ |
      ⟨amqp, -, -, -, h⟩
    · exact ⟨[], _, [], rfl, by simp [h, effects, schedule], Or.inl rfl⟩
    · rw [hen] at h1; cases h1
    · exact ⟨[], _, [], rfl, by simp [h, effects, schedule], Or.inl rfl⟩
    · rw [h, effects_connected]
      rcases runUntilError_shape env obj (publishOptions amqp obj)
        (unprocessed 0 obj.Status.Transitions) with ⟨-, -, h3, -⟩ |
        ⟨done, p, rest, init, ev0, e0, h1, -, -, -, h5, -, h7, -⟩
      · exact ⟨(unprocessed 0 obj.Status.Transitions).map Prod.fst, [], [], by simp,
          by simpa [loopRun] using h3, Or.inl rfl⟩
      · refine ⟨done.map Prod.fst, p.1 :: rest.map Prod.fst, failTail ev0.step, by simp [h1],
          by simpa [loopRun] using h7, ?_⟩
        rcases failTail_forms ev0.step p.1 h5 with h8 | h8
        · exact Or.inl h8
        · exact Or.inr ⟨p.1, _, rfl, h8⟩
  obtain ⟨done, rest, tail, k1, k2, k3⟩ := key
  refine ⟨done, rest, tail, k1, k2, k3, by rw [← k1]; exact hsorted,
    by intro i; rw [← k1]; exact hmem i, ?_, ?_⟩
  · intro pre post i ok h
    rw [k2] at h
    refine schedule_patch_split done tail pre post i ok ?_ h
    rcases k3 with k3 | ⟨k, rest', -, k3⟩
    · exact Or.inl k3
    · exact Or.inr ⟨k, k3⟩
  · intro pre post j ok h i hi hlt
    rw [k2] at h
    obtain ⟨d1, d2, h1, h2⟩ := schedule_publish_split done rest tail pre post j ok k3 h
    rw [h1] at hi
    have hs : (d1 ++ j :: d2).Pairwise (· < ·) := by rw [← h1, ← k1]; exact hsorted
    rw [h2]
    exact schedule_mem_split d1 i (mem_before_of_sorted d1 d2 i j hs hi hlt)

/-! ## Successful runs -/

theorem imageURLs_succeeds (idx : Nat) (images : List String)
    (h : ∀ image ∈ images, ∃ r, reference.ParseNormalizedNamed image = .ok r) :
    ∃ (evs : List Event) (urls : List String),
      imageURLs idx images = (evs, .ok urls) ∧ urls.length = images.length ∧
      ∀ (n : Nat) (image : String), images[n]? = some image →
        ∃ r, reference.ParseNormalizedNamed image = .ok r ∧
          urls[n]? = some (reference.TagNameOnly r).String := by
  induction images with
  | nil => exact ⟨[], [], rfl, rfl, by simp⟩
  | cons image rest ih =>
    obtain ⟨r, hr⟩ := h image (List.mem_cons_self _ _)
    obtain ⟨evs, urls, h1, h2, h3⟩ := ih (fun x hx => h x (List.mem_cons_of_mem _ hx))
    refine ⟨⟨.parseImage idx image, none⟩ :: evs, (reference.TagNameOnly r).String :: urls,
      by simp [imageURLs, hr, h1], by simp [h2], ?_⟩
    intro n x hx
    cases n with
    | zero =>
      simp at hx
      subst hx
      exact ⟨r, hr, by simp⟩
    | succ n =>
      simp at hx
      simpa using h3 n x hx

theorem processTransition_succeeds (env : Env) (obj : ImageBuild) (opts : PublishOptions)
    (i : Nat) (t : PhaseTransition)
    (hlink : ∃ gvk, env.GVKForObject = .ok gvk)
    (himg : t.Phase = PhaseSucceeded →
      ∀ image ∈ obj.Spec.Images, ∃ r, reference.ParseNormalizedNamed image = .ok r)
    (hmarshal : ∀ m, env.marshalMessage m = none) (hpub : ∀ j o, env.Publish j o = none)
    (hgen : ∀ ops, env.marshalPatch ops = none) (hpatch : ∀ j ops, env.Patch j ops = none) :
    ∃ evs, processTransition env obj opts i t = (evs, .ok ()) := by
  obtain ⟨gvk, hg⟩ := hlink
  have hm : ∃ evs m, transitionMessage env obj
      (env.pathJoin ["/apis", gvk.groupVersionString, "namespaces", obj.Namespace,
        env.toLower gvk.Kind, obj.Name]) i t = (evs, .ok m) := by
    unfold transitionMessage
    by_cases hs : t.Phase = PhaseSucceeded
    · obtain ⟨evs, urls, h1, -, -⟩ := imageURLs_succeeds i obj.Spec.Images (himg hs)
      simp [hs, h1]
    · simp [hs]
  obtain ⟨evs, m, hm⟩ := hm
  simp [processTransition, BuildObjectLink, hg, hm, hmarshal, hpub, hgen, hpatch]

theorem runUntilError_succeeds (body : Nat × PhaseTransition → List Event × Except GoError Unit)
    (ps : List (Nat × PhaseTransition)) (h : ∀ p ∈ ps, ∃ evs, body p = (evs, .ok ())) :
    (runUntilError body ps).2 = .ok () := by
  induction ps with
  | nil => rfl
  | cons p ps ih =>
    obtain ⟨evs, h1⟩ := h p (List.mem_cons_self _ _)
    have h2 := ih (fun q hq => h q (List.mem_cons_of_mem _ hq))
    rcases hr : runUntilError body ps with ⟨evs2, r⟩
    rw [hr] at h2
    simp only at h2
    simp [runUntilError, h1, hr, h2]

theorem schedule_count_publish (l : List Nat) (i : Nat) :
    (schedule l).count (.publish i true) = l.count i := by
  induction l with
  | nil => rfl
  | cons x l ih =>
    by_cases h : x = i
    · subst h
      simp [schedule, ih]
    · have h2 : ¬ (Effect.publish x true = Effect.publish i true) := by simpa using h
      have h3 : ¬ (Effect.patch x true = Effect.publish i true) := by simp
      simp [schedule, ih, List.count_cons, h, h2]

theorem schedule_mem (l : List Nat) (e : Effect) (h : e ∈ schedule l) :
    ∃ i ∈ l, e = .publish i true ∨ e = .patch i true := by
  induction l with
  | nil => cases h
  | cons x l ih =>
    simp [schedule] at h
    rcases h with h | h | h
    · exact ⟨x, List.mem_cons_self _ _, Or.inl h⟩
    · exact ⟨x, List.mem_cons_self _ _, Or.inr h⟩
    · obtain ⟨i, hi, h2⟩ := ih h
      exact ⟨i, List.mem_cons_of_mem _ hi, h2⟩

theorem unprocessed_eq_nil (ts : List PhaseTransition) (h : ∀ t ∈ ts, t.Processed = true) :
    unprocessed 0 ts = [] := by
  apply List.eq_nil_iff_forall_not_mem.2
  rintro ⟨i, t⟩ hm
  obtain ⟨-, h1, h2⟩ := (unprocessed_mem 0 ts i t).1 hm
  have := h t (List.getElem?_mem h1)
  rw [this] at h2
  cases h2

/-- Claim C2 (amended).  When messaging is enabled, the connection to the configured
AMQP URL succeeds, the object link can be built, the images of the object parse
whenever an unprocessed transition has phase `Succeeded`, and every marshal,
publish and patch call succeeds, `Reconcile` returns success and its publish and
patch calls are exactly `publish i, patch i` for the unprocessed indices in order:
one publish per unprocessed transition, none for a processed one, and nothing at
all when every transition is processed. -/
theorem reconcile_publishes_each_unprocessed_once (env : Env) (cfg : Messaging)
    (obj : ImageBuild) (amqp : AMQPMessaging)
    (hen : cfg.Enabled = true) (hamqp : cfg.AMQP = some amqp)
    (hconn : env.NewPublisher amqp.URL = none)
    (hlink : ∃ gvk, env.GVKForObject = .ok gvk)
    (himg : (∃ t ∈ obj.Status.Transitions, t.Processed = false ∧ t.Phase = PhaseSucceeded) →
      ∀ image ∈ obj.Spec.Images, ∃ r, reference.ParseNormalizedNamed image = .ok r)
    (hmarshal : ∀ m, env.marshalMessage m = none) (hpub : ∀ j o, env.Publish j o = none)
    (hgen : ∀ ops, env.marshalPatch ops = none) (hpatch : ∀ j ops, env.Patch j ops = none) :
    (Reconcile env cfg obj).result = .ok ∧
    effects (Reconcile env cfg obj).trace
      = schedule ((unprocessed 0 obj.Status.Transitions).map Prod.fst) ∧
    (∀ i t, obj.Status.Transitions[i]? = some t → t.Processed = false →
      (effects (Reconcile env cfg obj).trace).count (.publish i true) = 1 ∧
      (effects (Reconcile env cfg obj).trace).count (.publish i false) = 0) ∧
    (∀ i t, obj.Status.Transitions[i]? = some t → t.Processed = true →
      ∀ b, .publish i b ∉ effects (Reconcile env cfg obj).trace ∧
        .patch i b ∉ effects (Reconcile env cfg obj).trace) ∧
    ((∀ t ∈ obj.Status.Transitions, t.Processed = true) →
      effects (Reconcile env cfg obj).trace = []) := by
  have hrun : (loopRun env amqp obj).2 = .ok () := by
    apply runUntilError_succeeds
    rintro ⟨i, t⟩ hp
    obtain ⟨-, h1, h2⟩ := (unprocessed_mem 0 _ i t).1 hp
    exact processTransition_succeeds env obj _ i t hlink
      (fun hs => himg ⟨t, List.getElem?_mem h1, h2, hs⟩) hmarshal hpub hgen hpatch
  have hE : effects (Reconcile env cfg obj).trace
      = schedule ((unprocessed 0 obj.Status.Transitions).map Prod.fst) ∧
      (Reconcile env cfg obj).result = .ok := by
    rcases Reconcile_cases env cfg obj with ⟨h1, -⟩ | ⟨a, -, h1, -⟩ | ⟨a, e, h1, -, h2, -⟩ |
      ⟨a, h1, -, -, h⟩
    · rw [hamqp] at h1; cases h1
    · rw [hen] at h1; cases h1
    · rw [hamqp] at h1
      cases h1
      rw [hconn] at h2
      cases h2
    · rw [hamqp] at h1
      cases h1
      rw [h, effects_connected]
      rcases runUntilError_shape env obj (publishOptions amqp obj)
        (unprocessed 0 obj.Status.Transitions) with ⟨-, -, h3, -⟩ |
        ⟨done, p, rest, init, ev0, e0, -, -, -, -, -, h6, -, -⟩
      · exact ⟨by simpa [loopRun] using h3, by simp [hrun, loopOutcome]⟩
      · rw [loopRun] at hrun
        rw [hrun] at h6
        cases h6
  have hnodup : ((unprocessed 0 obj.Status.Transitions).map Prod.fst).Nodup :=
    (unprocessed_sorted 0 obj.Status.Transitions).imp (fun h => Nat.ne_of_lt h)
  refine ⟨hE.2, hE.1, ?_, ?_, ?_⟩
  · intro i t h1 h2
    rw [hE.1]
    constructor
    · rw [schedule_count_publish]
      apply List.count_eq_one_of_mem hnodup
      exact List.mem_map.2 ⟨(i, t), (unprocessed_mem 0 _ i t).2 ⟨Nat.zero_le _, by simpa using h1, h2⟩, rfl⟩
    · apply List.count_eq_zero_of_not_mem
      intro hm
      obtain ⟨j, -, h3 | h3⟩ := schedule_mem _ _ hm <;> simp at h3
  · intro i t h1 h2 b
    rw [hE.1]
    have hni : i ∉ (unprocessed 0 obj.Status.Transitions).map Prod.fst := by
      intro hm
      obtain ⟨⟨j, t2⟩, h3, rfl⟩ := List.mem_map.1 hm
      obtain ⟨-, h4, h5⟩ := (unprocessed_mem 0 _ j t2).1 h3
      simp only [Nat.sub_zero] at h4
      rw [h1] at h4
      cases h4
      rw [h2] at h5
      cases h5
    constructor
    · intro hm
      obtain ⟨j, hj, h3 | h3⟩ := schedule_mem _ _ hm <;> simp at h3
      exact hni (h3.1 ▸ hj)
    · intro hm
      obtain ⟨j, hj, h3 | h3⟩ := schedule_mem _ _ hm <;> simp at h3
      exact hni (h3.1 ▸ hj)
  · intro hall
    rw [hE.1, unprocessed_eq_nil _ hall]
    rfl

/-- With every collaborator succeeding and messaging enabled, an unprocessed
transition to `Succeeded` is not published when an image of the object is
malformed: the call returns the wrapped parse error. -/
theorem reconcile_malformed_image_not_published :
    sampleCfg.Enabled = true ∧ sampleCfg.AMQP = some ⟨"amqp://broker:5672", "hephaestus", "builds"⟩ ∧
    (∀ url, okEnv.NewPublisher url = none) ∧ (∃ gvk, okEnv.GVKForObject = .ok gvk) ∧
    (∀ m, okEnv.marshalMessage m = none) ∧ (∀ j o, okEnv.Publish j o = none) ∧
    (∀ ops, okEnv.marshalPatch ops = none) ∧ (∀ j ops, okEnv.Patch j ops = none) ∧
    malformedImageObj.Status.Transitions[0]? = some ⟨"Running", "Succeeded", some 30, false⟩ ∧
    effects (Reconcile okEnv sampleCfg malformedImageObj).trace = [] ∧
    (Reconcile okEnv sampleCfg malformedImageObj).result ≠ .ok ∧
    ∃ cause, (Reconcile okEnv sampleCfg malformedImageObj).result
      = .error (.wrap "parsing image name \"MyRepo/App\" failed" cause) := by
  refine ⟨rfl, rfl, fun _ => rfl, ⟨_, rfl⟩, fun _ => rfl, fun _ _ => rfl, fun _ => rfl,
    fun _ _ => rfl, rfl, by decide, by decide,
    ⟨.base "invalid reference format: repository name must be lowercase", by decide⟩⟩

/-- The amended C2 on the sample object and collaborators that always succeed. -/
theorem reconcile_publishes_each_unprocessed_once_witness :
    (Reconcile okEnv sampleCfg sampleObj).result = .ok ∧
    effects (Reconcile okEnv sampleCfg sampleObj).trace
      = [.publish 0 true, .patch 0 true, .publish 1 true, .patch 1 true,
          .publish 2 true, .patch 2 true] := by
  have h := reconcile_publishes_each_unprocessed_once okEnv sampleCfg sampleObj
    ⟨"amqp://broker:5672", "hephaestus", "builds"⟩ rfl rfl rfl ⟨_, rfl⟩
    (fun _ image hi => by
      have : image = "myrepo/app" := by simpa [sampleObj] using hi
      subst this
      exact ⟨⟨"docker.io", "myrepo/app", "", ""⟩, by decide⟩)
    (fun _ => rfl) (fun _ _ => rfl) (fun _ => rfl) (fun _ _ => rfl)
  exact ⟨h.1, h.2.1.trans (by decide)⟩

/-- C1 on the sample object when the publish of index 2 fails: the calls are
`publish 0, patch 0, publish 1, patch 1`, then the failed `publish 2`. -/
theorem reconcile_effects_in_stored_order_witness :
    sampleCfg.Enabled = true ∧
    effects (Reconcile publishFailsAt2 sampleCfg sampleObj).trace
      = [.publish 0 true, .patch 0 true, .publish 1 true, .patch 1 true, .publish 2 false] ∧
    ∃ done rest tail,
      (unprocessed 0 sampleObj.Status.Transitions).map Prod.fst = done ++ rest ∧
      effects (Reconcile publishFailsAt2 sampleCfg sampleObj).trace = schedule done ++ tail := by
  refine ⟨rfl, by decide, ?_⟩
  obtain ⟨d, r, t, h1, h2, -⟩ :=
    reconcile_effects_in_stored_order publishFailsAt2 sampleCfg sampleObj rfl
  exact ⟨d, r, t, h1, h2⟩

/-- Claim C3.  If messaging is enabled and the run contains the failed publish of the
unprocessed transition `k`, then `Reconcile` returns the publish error, every
unprocessed transition before `k` was published and patched with success and is
stored with `Processed = true`, transition `k` is not patched and is stored as it
was, and nothing is published or patched for an index after `k`. -/
theorem reconcile_publish_failure (env : Env) (cfg : Messaging) (obj : ImageBuild)
    (k : Nat) (t : PhaseTransition) (opts : PublishOptions) (e : GoError)
    (hen : cfg.Enabled = true) (hk : obj.Status.Transitions[k]? = some t)
    (hunp : t.Processed = false)
    (hfail : ⟨.publish k opts, some e⟩ ∈ (Reconcile env cfg obj).trace) :
    (Reconcile env cfg obj).result = .error e ∧
    (∀ i ti, i < k → obj.Status.Transitions[i]? = some ti → ti.Processed = false →
      (storedAfter obj.Status.Transitions (Reconcile env cfg obj).trace)[i]?
          = some { ti with Processed := true } ∧
        .publish i true ∈ effects (Reconcile env cfg obj).trace ∧
        .patch i true ∈ effects (Reconcile env cfg obj).trace) ∧
    (storedAfter obj.Status.Transitions (Reconcile env cfg obj).trace)[k]? = some t ∧
    (∀ b, .patch k b ∉ effects (Reconcile env cfg obj).trace) ∧
    (∀ j, k < j → ∀ b, .publish j b ∉ effects (Reconcile env cfg obj).trace ∧
      .patch j b ∉ effects (Reconcile env cfg obj).trace) := by
  have _ := hen
  have _ := hunp
  have hsorted := unprocessed_sorted 0 obj.Status.Transitions
  rcases Reconcile_cases env cfg obj with ⟨-, h⟩ | ⟨a, -, -, h⟩ | ⟨a, e1, -, -, -, h⟩ |
    ⟨amqp, -, -, -, h⟩
  · rw [h] at hfail; cases hfail
  · rw [h] at hfail; cases hfail
  · rw [h] at hfail; simp at hfail
  · rw [h] at hfail ⊢
    simp only [effects_connected, storedAfter_connected]
    simp at hfail
    rcases runUntilError_shape env obj (publishOptions amqp obj)
      (unprocessed 0 obj.Status.Transitions) with ⟨-, h2, -, -⟩ |
      ⟨done, p, rest, init, ev0, e0, h1, h2, h3, h4, h5, h6, h7, h8⟩
    · have := h2 _ hfail
      simp at this
    · simp only [loopRun] at hfail ⊢
      rw [h2] at hfail
      have hev : ev0 = ⟨.publish k opts, some e⟩ := by
        rcases List.mem_append.1 hfail with hm | hm
        · have := h3 _ hm
          simp at this
        · exact (List.mem_singleton.1 hm).symm
      subst hev
      simp only [Step.index, Option.some.injEq] at h5
      simp only [Option.some.injEq] at h4
      subst h4
      rw [h6, h7]
      simp only [h8, returnedError, failTail]
      rw [h1] at hsorted
      simp only [List.map_append, List.map_cons, ← h5] at hsorted
      rw [List.pairwise_append] at hsorted
      obtain ⟨s1, s2, s3⟩ := hsorted
      rw [List.pairwise_cons] at s2
      have hdone : ∀ q ∈ done, q.1 < k := fun q hq =>
        s3 q.1 (List.mem_map_of_mem _ hq) k (List.mem_cons_self _ _)
      refine ⟨rfl, ?_, ?_, ?_, ?_⟩
      · intro i ti hik hi hti
        have hm : (i, ti) ∈ unprocessed 0 obj.Status.Transitions :=
          (unprocessed_mem 0 _ i ti).2 ⟨Nat.zero_le _, by simpa using hi, hti⟩
        rw [h1] at hm
        have hmd : (i, ti) ∈ done := by
          rcases List.mem_append.1 hm with hm | hm
          · exact hm
          · rcases List.mem_cons.1 hm with hm | hm
            · rw [← hm] at h5
              simp at h5
              omega
            · have := s2.1 i (List.mem_map.2 ⟨(i, ti), hm, rfl⟩)
              omega
        have hlen : i < obj.Status.Transitions.length := by
          rcases Nat.lt_or_ge i obj.Status.Transitions.length with h9 | h9
          · exact h9
          · rw [List.getElem?_eq_none h9] at hi
            cases hi
        refine ⟨patchAll_getElem_of_mem _ done i ti s1 hmd hlen, ?_, ?_⟩
        · apply List.mem_append_left
          obtain ⟨a, b, hab⟩ := schedule_mem_split (done.map Prod.fst) i
            (List.mem_map.2 ⟨(i, ti), hmd, rfl⟩)
          rw [hab]
          simp
        · apply List.mem_append_left
          obtain ⟨a, b, hab⟩ := schedule_mem_split (done.map Prod.fst) i
            (List.mem_map.2 ⟨(i, ti), hmd, rfl⟩)
          rw [hab]
          simp
      · rw [patchAll_getElem_of_not_mem _ done k (fun q hq => Nat.ne_of_lt (hdone q hq))]
        exact hk
      · intro b hm
        rcases List.mem_append.1 hm with hm | hm
        · obtain ⟨j, hj, h9 | h9⟩ := schedule_mem _ _ hm <;> simp at h9
          obtain ⟨q, hq, rfl⟩ := List.mem_map.1 hj
          have := hdone q hq
          omega
        · simp at hm
      · intro j hj b
        constructor
        · intro hm
          rcases List.mem_append.1 hm with hm | hm
          · obtain ⟨j2, hj2, h9 | h9⟩ := schedule_mem _ _ hm <;> simp at h9
            obtain ⟨q, hq, rfl⟩ := List.mem_map.1 hj2
            have := hdone q hq
            omega
          · simp at hm
            omega
        · intro hm
          rcases List.mem_append.1 hm with hm | hm
          · obtain ⟨j2, hj2, h9 | h9⟩ := schedule_mem _ _ hm <;> simp at h9
            obtain ⟨q, hq, rfl⟩ := List.mem_map.1 hj2
            have := hdone q hq
            omega
          · simp at hm

/-- C3 on three transitions when the publish of index 2 fails: the call returns the
error, transitions 0 and 1 are stored processed, transition 2 stays unprocessed. -/
theorem reconcile_publish_failure_witness :
    (Reconcile publishFailsAt2 sampleCfg sampleObj).result = .error (.base "channel closed") ∧
    (storedAfter sampleTransitions (Reconcile publishFailsAt2 sampleCfg sampleObj).trace)[0]?
      = some ⟨"", "Initializing", some 10, true⟩ ∧
    (storedAfter sampleTransitions (Reconcile publishFailsAt2 sampleCfg sampleObj).trace)[1]?
      = some ⟨"Initializing", "Running", some 20, true⟩ ∧
    (storedAfter sampleTransitions (Reconcile publishFailsAt2 sampleCfg sampleObj).trace)[2]?
      = some ⟨"Running", "Succeeded", some 30, false⟩ := by
  have h := reconcile_publish_failure publishFailsAt2 sampleCfg sampleObj 2
    ⟨"Running", "Succeeded", some 30, false⟩
    ⟨"hephaestus", "builds", "application/json", some sampleMessage2⟩ (.base "channel closed")
    rfl rfl rfl (by decide)
  exact ⟨h.1, (h.2.1 0 ⟨"", "Initializing", some 10, false⟩ (by decide) rfl rfl).1,
    (h.2.1 1 ⟨"Initializing", "Running", some 20, false⟩ (by decide) rfl rfl).1, h.2.2.1⟩

/-! ## The patch of an iteration -/

theorem processTransition_patch_context (env : Env) (obj : ImageBuild) (opts : PublishOptions)
    (i : Nat) (t : PhaseTransition) (j : Nat) (ops : List Operation) (err : Option GoError)
    (h : ⟨.applyPatch j ops, err⟩ ∈ (processTransition env obj opts i t).1) :
    j = i ∧ ops = transitionPatch i t ∧
      ∃ o a, (processTransition env obj opts i t).1
        = a ++ [⟨.publish i o, none⟩, ⟨.generatePatch i ops, none⟩, ⟨.applyPatch i ops, err⟩] := by
  have hpar : ∀ pevs, parsesAt i pevs → (⟨.applyPatch j ops, err⟩ : Event) ∉ pevs := by
    intro pevs hp hm
    obtain ⟨image, h1⟩ := hp _ hm
    simp at h1
  rcases processTransition_shape env obj opts i t with ⟨e, h1⟩ | ⟨pevs, hp, ha, h1⟩
  · rw [h1] at h; simp at h
  · rcases h1 with ⟨image, e0, h1⟩ | ⟨link, m, -, -, h1⟩
    · rw [h1] at h
      simp [hpar pevs hp] at h
    · rcases h1 with ⟨e, h1⟩ | ⟨e, h1⟩ | ⟨e, h1⟩ | ⟨e, h1⟩ | h1 <;> rw [h1] at h ⊢ <;>
        simp [hpar pevs hp] at h
      · obtain ⟨⟨h2, h3⟩, h4⟩ := h
        subst h2 h3 h4
        exact ⟨rfl, rfl, { opts with Body := some m },
          ⟨.objectLink j, none⟩ :: pevs ++ [⟨.marshalMessage j m, none⟩], by simp⟩
      · obtain ⟨⟨h2, h3⟩, h4⟩ := h
        subst h2 h3 h4
        exact ⟨rfl, rfl, { opts with Body := some m },
          ⟨.objectLink j, none⟩ :: pevs ++ [⟨.marshalMessage j m, none⟩], by simp⟩

theorem processTransition_publish_context (env : Env) (obj : ImageBuild)
    (opts : PublishOptions) (i : Nat) (t : PhaseTransition) (j : Nat) (o : PublishOptions)
    (h : ⟨.publish j o, none⟩ ∈ (processTransition env obj opts i t).1) :
    j = i ∧ ∃ gerr, ⟨.generatePatch i (transitionPatch i t), gerr⟩
        ∈ (processTransition env obj opts i t).1 ∧
      (gerr = none → ∃ err, ⟨.applyPatch i (transitionPatch i t), err⟩
        ∈ (processTransition env obj opts i t).1) := by
  have hpar : ∀ pevs, parsesAt i pevs → (⟨.publish j o, none⟩ : Event) ∉ pevs := by
    intro pevs hp hm
    obtain ⟨image, h1⟩ := hp _ hm
    simp at h1
  rcases processTransition_shape env obj opts i t with ⟨e, h1⟩ | ⟨pevs, hp, ha, h1⟩
  · rw [h1] at h; simp at h
  · rcases h1 with ⟨image, e0, h1⟩ | ⟨link, m, -, -, h1⟩
    · rw [h1] at h
      simp [hpar pevs hp] at h
    · rcases h1 with ⟨e, h1⟩ | ⟨e, h1⟩ | ⟨e, h1⟩ | ⟨e, h1⟩ | h1 <;> rw [h1] at h ⊢ <;>
        simp [hpar pevs hp] at h
      · exact ⟨h.1, some e, by simp, by simp⟩
      · exact ⟨h.1, none, by simp, fun _ => ⟨some e, by simp⟩⟩
      · exact ⟨h.1, none, by simp, fun _ => ⟨none, by simp⟩⟩

theorem runUntilError_mem (body : Nat × PhaseTransition → List Event × Except GoError Unit)
    (ps : List (Nat × PhaseTransition)) (ev : Event) (h : ev ∈ (runUntilError body ps).1) :
    ∃ p ∈ ps, ev ∈ (body p).1 ∧ ∃ a b, (runUntilError body ps).1 = a ++ (body p).1 ++ b := by
  induction ps with
  | nil => simp [runUntilError] at h
  | cons p ps ih =>
    rcases hb : body p with ⟨evs, r⟩
    cases r with
    | error e =>
      simp [runUntilError, hb] at h
      exact ⟨p, List.mem_cons_self _ _, by simp [hb, h], [], [], by simp [runUntilError, hb]⟩
    | ok u =>
      rcases hr : runUntilError body ps with ⟨evs2, r2⟩
      simp [runUntilError, hb, hr] at h
      rcases h with h | h
      · exact ⟨p, List.mem_cons_self _ _, by simp [hb, h], [], evs2,
          by simp [runUntilError, hb, hr]⟩
      · rw [hr] at ih
        obtain ⟨q, hq, h1, a, b, h2⟩ := ih h
        simp only at h2
        exact ⟨q, List.mem_cons_of_mem _ hq, h1, evs ++ a, b,
          by simp [runUntilError, hb, hr, h2]⟩

/-- Claim C8.  Every patch `Reconcile` sends was generated for an unprocessed transition
`i` right after the successful publish of `i`, and is the single operation
`replace` at `/status/transitions/i` with the stored transition `i`, `Processed`
set and the other fields as they were; applied to the stored transitions it changes
element `i` only.  And after every successful publish the patch for that index is
generated, and sent unless its generation fails. -/
theorem reconcile_patch_is_single_replace (env : Env) (cfg : Messaging) (obj : ImageBuild) :
    (∀ i ops err, ⟨.applyPatch i ops, err⟩ ∈ (Reconcile env cfg obj).trace →
      ∃ t, obj.Status.Transitions[i]? = some t ∧ t.Processed = false ∧
        ops = [{ Operation := "replace", Path := "/status/transitions/" ++ toString i,
                 Value := { PreviousPhase := t.PreviousPhase, Phase := t.Phase,
                            OccurredAt := t.OccurredAt, Processed := true } }] ∧
        (∃ o a b, (Reconcile env cfg obj).trace
          = a ++ ⟨.publish i o, none⟩ :: ⟨.generatePatch i ops, none⟩
              :: ⟨.applyPatch i ops, err⟩ :: b) ∧
        ∀ stored : List PhaseTransition,
          (ops.foldl applyOperation stored).length = stored.length ∧
          (i < stored.length → (ops.foldl applyOperation stored)[i]?
            = some { t with Processed := true }) ∧
          ∀ j, j ≠ i → (ops.foldl applyOperation stored)[j]? = stored[j]?) ∧
    (∀ i o, ⟨.publish i o, none⟩ ∈ (Reconcile env cfg obj).trace →
      ∃ t, obj.Status.Transitions[i]? = some t ∧ t.Processed = false ∧
        ∃ gerr, ⟨.generatePatch i (transitionPatch i t), gerr⟩ ∈ (Reconcile env cfg obj).trace ∧
          (gerr = none → ∃ err, ⟨.applyPatch i (transitionPatch i t), err⟩
            ∈ (Reconcile env cfg obj).trace)) := by
  constructor
  · intro i ops err h
    rcases Reconcile_cases env cfg obj with ⟨-, hr⟩ | ⟨a, -, -, hr⟩ | ⟨a, e1, -, -, -, hr⟩ |
      ⟨amqp, -, -, -, hr⟩
    · rw [hr] at h; cases h
    · rw [hr] at h; cases h
    · rw [hr] at h; simp at h
    · rw [hr] at h ⊢
      simp at h
      obtain ⟨⟨j, t⟩, hp, h1, a, b, h2⟩ := runUntilError_mem _ _ _ h
      obtain ⟨h3, h4, o, a2, h5⟩ := processTransition_patch_context env obj _ j t i ops err h1
      subst h3
      obtain ⟨-, h6, h7⟩ := (unprocessed_mem 0 _ i t).1 hp
      refine ⟨t, by simpa using h6, h7, by rw [h4]; rfl, ⟨o, ⟨.connect amqp.URL, none⟩ :: a ++ a2,
        b ++ [⟨.close, env.Close⟩], ?_⟩, ?_⟩
      · simp only at h2 h5
        simp only [loopRun, h2, h5]
        simp
      · intro stored
        rw [h4, apply_transitionPatch]
        refine ⟨by simp, fun hlt => by simp [hlt], fun j hj => ?_⟩
        exact List.getElem?_set_ne (Ne.symm hj)
  · intro i o h
    rcases Reconcile_cases env cfg obj with ⟨-, hr⟩ | ⟨a, -, -, hr⟩ | ⟨a, e1, -, -, -, hr⟩ |
      ⟨amqp, -, -, -, hr⟩
    · rw [hr] at h; cases h
    · rw [hr] at h; cases h
    · rw [hr] at h; simp at h
    · rw [hr] at h ⊢
      simp at h
      obtain ⟨⟨j, t⟩, hp, h1, a, b, h2⟩ := runUntilError_mem _ _ _ h
      obtain ⟨h3, gerr, h4, h5⟩ := processTransition_publish_context env obj _ j t i o h1
      subst h3
      obtain ⟨-, h6, h7⟩ := (unprocessed_mem 0 _ i t).1 hp
      simp only at h2
      refine ⟨t, by simpa using h6, h7, gerr, ?_, fun hg => ?_⟩
      · simp only [loopRun, h2]
        simp [h4]
      · obtain ⟨err, h8⟩ := h5 hg
        refine ⟨err, ?_⟩
        simp only [loopRun, h2]
        simp [h8]

/-- C8 on the sample run in which the publish of index 2 fails: the patch sent for
index 1 replaces `/status/transitions/1` by the second transition, processed. -/
theorem reconcile_patch_is_single_replace_witness :
    (⟨.applyPatch 1 (transitionPatch 1 ⟨"Initializing", "Running", some 20, false⟩), none⟩ : Event)
      ∈ (Reconcile publishFailsAt2 sampleCfg sampleObj).trace ∧
    ∃ t, sampleObj.Status.Transitions[1]? = some t ∧ t.Processed = false ∧
      transitionPatch 1 ⟨"Initializing", "Running", some 20, false⟩
        = [{ Operation := "replace", Path := "/status/transitions/" ++ toString 1,
             Value := { PreviousPhase := t.PreviousPhase, Phase := t.Phase,
                        OccurredAt := t.OccurredAt, Processed := true } }] := by
  have hm : (⟨.applyPatch 1 (transitionPatch 1 ⟨"Initializing", "Running", some 20, false⟩),
      none⟩ : Event) ∈ (Reconcile publishFailsAt2 sampleCfg sampleObj).trace := by decide
  obtain ⟨t, h1, h2, h3, -⟩ :=
    (reconcile_patch_is_single_replace publishFailsAt2 sampleCfg sampleObj).1 1 _ none hm
  exact ⟨hm, t, h1, h2, h3⟩

/-! ## Image URLs -/

theorem TagNameOnly_String (r : reference.Named) :
    (reference.TagNameOnly r).String
      = if r.tag = "" ∧ r.digest = "" then r.Name ++ ":latest" else r.String := by
  unfold reference.TagNameOnly
  by_cases h : r.tag = "" ∧ r.digest = ""
  · rw [if_pos h, if_pos h]
    have h1 : ¬ (reference.defaultTag = "") := by decide
    have h2 : ":" ++ reference.defaultTag = ":latest" := by decide
    simp only [reference.Named.String, reference.Named.Name, h.2, h1, if_true, if_false, h2]
    exact String.append_empty _
  · rw [if_neg h, if_neg h]

theorem imageURLs_ok_spec (idx : Nat) (images : List String) (evs : List Event)
    (urls : List String) (h : imageURLs idx images = (evs, .ok urls)) :
    urls.length = images.length ∧
      ∀ (n : Nat) (image : String), images[n]? = some image →
        ∃ r, reference.ParseNormalizedNamed image = .ok r ∧
          urls[n]? = some (reference.TagNameOnly r).String := by
  induction images generalizing evs urls with
  | nil =>
    simp [imageURLs] at h
    simp [h.2]
  | cons image rest ih =>
    unfold imageURLs at h
    cases hp : reference.ParseNormalizedNamed image with
    | error err => simp [hp] at h
    | ok named =>
      rcases hr : imageURLs idx rest with ⟨evs2, r⟩
      cases r with
      | error e => simp [hp, hr] at h
      | ok urls2 =>
        simp [hp, hr] at h
        obtain ⟨h1, h2⟩ := ih evs2 urls2 hr
        rw [← h.2]
        refine ⟨by simp [h1], ?_⟩
        intro n x hx
        cases n with
        | zero =>
          simp at hx
          subst hx
          exact ⟨named, hp, by simp⟩
        | succ n =>
          simp at hx
          simpa using h2 n x hx

theorem transitionMessage_ok_spec (env : Env) (obj : ImageBuild) (link : String) (idx : Nat)
    (t : PhaseTransition) (evs : List Event) (m : ImageBuildStatusTransitionMessage)
    (hs : t.Phase = PhaseSucceeded) (h : transitionMessage env obj link idx t = (evs, .ok m)) :
    m.ImageURLs.length = obj.Spec.Images.length ∧
      ∀ (n : Nat) (image : String), obj.Spec.Images[n]? = some image →
        ∃ r, reference.ParseNormalizedNamed image = .ok r ∧
          m.ImageURLs[n]? = some (if r.tag = "" ∧ r.digest = "" then r.Name ++ ":latest"
            else r.String) := by
  unfold transitionMessage at h
  rcases hr : imageURLs idx obj.Spec.Images with ⟨evs2, r⟩
  cases r with
  | error e => simp [hs, hr] at h
  | ok urls =>
    simp [hs, hr] at h
    obtain ⟨h1, h2⟩ := imageURLs_ok_spec idx _ _ _ hr
    rw [← h.2]
    refine ⟨h1, fun n image hi => ?_⟩
    obtain ⟨r, h3, h4⟩ := h2 n image hi
    exact ⟨r, h3, by rw [← TagNameOnly_String]; exact h4⟩

theorem processTransition_publish_body (env : Env) (obj : ImageBuild) (opts : PublishOptions)
    (i : Nat) (t : PhaseTransition) (j : Nat) (o : PublishOptions) (err : Option GoError)
    (h : ⟨.publish j o, err⟩ ∈ (processTransition env obj opts i t).1) :
    j = i ∧ ∃ link pevs m, transitionMessage env obj link i t = (pevs, .ok m) ∧
      o = { opts with Body := some m } := by
  have hpar : ∀ pevs, parsesAt i pevs → (⟨.publish j o, err⟩ : Event) ∉ pevs := by
    intro pevs hp hm
    obtain ⟨image, h1⟩ := hp _ hm
    simp at h1
  rcases processTransition_shape env obj opts i t with ⟨e, h1⟩ | ⟨pevs, hp, ha, h1⟩
  · rw [h1] at h; simp at h
  · rcases h1 with ⟨image, e0, h1⟩ | ⟨link, m, -, hm, h1⟩
    · rw [h1] at h
      simp [hpar pevs hp] at h
    · rcases h1 with ⟨e, h1⟩ | ⟨e, h1⟩ | ⟨e, h1⟩ | ⟨e, h1⟩ | h1 <;> rw [h1] at h <;>
        simp [hpar pevs hp] at h <;> exact ⟨h.1.1, link, pevs, m, hm, h.1.2⟩

/-- Claim C5 (amended).  For a transition whose phase is `Succeeded` and images that all
parse, the message is built and its `imageURLs` has the length and order of
`Spec.Images`; entry `n` is the normalized (fully qualified) form of image `n`: its
repository name with `:latest` appended when the reference has neither tag nor
digest, and the string of the normalized reference otherwise.  The same holds for
the body of every message `Reconcile` publishes for a `Succeeded` transition. -/
theorem succeeded_message_image_urls (env : Env) (cfg : Messaging) (obj : ImageBuild) :
    (∀ (link : String) (idx : Nat) (t : PhaseTransition), t.Phase = PhaseSucceeded →
      (∀ image ∈ obj.Spec.Images, ∃ r, reference.ParseNormalizedNamed image = .ok r) →
      ∃ evs m, transitionMessage env obj link idx t = (evs, .ok m) ∧
        m.ImageURLs.length = obj.Spec.Images.length ∧
        ∀ (n : Nat) (image : String), obj.Spec.Images[n]? = some image →
          ∃ r, reference.ParseNormalizedNamed image = .ok r ∧
            m.ImageURLs[n]? = some (if r.tag = "" ∧ r.digest = "" then r.Name ++ ":latest"
              else r.String)) ∧
    (∀ (i : Nat) (o : PublishOptions) (err : Option GoError) (t : PhaseTransition),
      ⟨.publish i o, err⟩ ∈ (Reconcile env cfg obj).trace →
      obj.Status.Transitions[i]? = some t → t.Phase = PhaseSucceeded →
      ∃ m, o.Body = some m ∧ m.ImageURLs.length = obj.Spec.Images.length ∧
        ∀ (n : Nat) (image : String), obj.Spec.Images[n]? = some image →
          ∃ r, reference.ParseNormalizedNamed image = .ok r ∧
            m.ImageURLs[n]? = some (if r.tag = "" ∧ r.digest = "" then r.Name ++ ":latest"
              else r.String)) := by
  constructor
  · intro link idx t hs hwf
    obtain ⟨evs, urls, h1, -, -⟩ := imageURLs_succeeds idx obj.Spec.Images hwf
    have h2 : ∃ m, transitionMessage env obj link idx t = (evs, .ok m) := by
      simp [transitionMessage, hs, h1]
    obtain ⟨m, h2⟩ := h2
    exact ⟨evs, m, h2, transitionMessage_ok_spec env obj link idx t evs m hs h2⟩
  · intro i o err t h ht hs
    rcases Reconcile_cases env cfg obj with ⟨-, hr⟩ | ⟨a, -, -, hr⟩ | ⟨a, e1, -, -, -, hr⟩ |
      ⟨amqp, -, -, -, hr⟩
    · rw [hr] at h; cases h
    · rw [hr] at h; cases h
    · rw [hr] at h; simp at h
    · rw [hr] at h
      simp at h
      obtain ⟨⟨j, t2⟩, hp, h1, -⟩ := runUntilError_mem _ _ _ h
      obtain ⟨h3, link, pevs, m, h4, h5⟩ := processTransition_publish_body env obj _ j t2 i o err h1
      subst h3
      obtain ⟨-, h6, -⟩ := (unprocessed_mem 0 _ i t2).1 hp
      simp only [Nat.sub_zero] at h6
      rw [ht] at h6
      cases h6
      exact ⟨m, by rw [h5], transitionMessage_ok_spec env obj link i t pevs m hs h4⟩

/-- The images `["myrepo/app"]` and `["myrepo/app:v2"]` on a `Succeeded` transition
yield `["docker.io/myrepo/app:latest"]` and `["docker.io/myrepo/app:v2"]`: the
references are normalized, not `myrepo/app:latest` and `myrepo/app:v2`. -/
theorem succeeded_message_urls_are_normalized :
    ((transitionMessage okEnv sampleObj "/apis/link" 2
        ⟨"Running", "Succeeded", some 30, false⟩).2.map (fun m => m.ImageURLs))
      = .ok ["docker.io/myrepo/app:latest"] ∧
    ((transitionMessage okEnv
        { sampleObj with Spec := { Images := ["myrepo/app:v2"], AMQPOverrides := none } }
        "/apis/link" 2 ⟨"Running", "Succeeded", some 30, false⟩).2.map (fun m => m.ImageURLs))
      = .ok ["docker.io/myrepo/app:v2"] ∧
    (⟨.publish 2 ⟨"hephaestus", "builds", "application/json", some sampleMessage2⟩, none⟩ : Event)
      ∈ (Reconcile okEnv sampleCfg sampleObj).trace ∧
    sampleMessage2.ImageURLs ≠ ["myrepo/app:latest"] := by
  refine ⟨?_, ?_, ?_, ?_⟩ <;> decide

/-- The amended C5 on the sample object: one image, `myrepo/app`, gives one URL,
`docker.io/myrepo/app:latest`. -/
theorem succeeded_message_image_urls_witness :
    ∃ evs m, transitionMessage okEnv sampleObj "/apis/link" 2
        ⟨"Running", "Succeeded", some 30, false⟩ = (evs, .ok m) ∧
      m.ImageURLs.length = 1 ∧ m.ImageURLs[0]? = some "docker.io/myrepo/app:latest" := by
  obtain ⟨evs, m, h1, h2, h3⟩ :=
    (succeeded_message_image_urls okEnv sampleCfg sampleObj).1 "/apis/link" 2
      ⟨"Running", "Succeeded", some 30, false⟩ rfl
      (fun image hi => by
        have : image = "myrepo/app" := by simpa [sampleObj] using hi
        subst this
        exact ⟨⟨"docker.io", "myrepo/app", "", ""⟩, by decide⟩)
  obtain ⟨r, h4, h5⟩ := h3 0 "myrepo/app" rfl
  have hr : r = ⟨"docker.io", "myrepo/app", "", ""⟩ := by
    have h6 : reference.ParseNormalizedNamed "myrepo/app"
        = .ok ⟨"docker.io", "myrepo/app", "", ""⟩ := by decide
    rw [h6] at h4
    cases h4
    rfl
  subst hr
  exact ⟨evs, m, h1, h2, h5.trans (by decide)⟩

/-! ## The build client -/

theorem foldl_pushExport (images : List String) (so : SolveOpt) :
    images.foldl (fun so name => { so with Exports := so.Exports ++ [pushExport name] }) so
      = { so with Exports := so.Exports ++ images.map pushExport } := by
  induction images generalizing so with
  | nil => simp
  | cons image rest ih => simp [ih]

theorem buildModify_exports (env : BuildEnv) (opts : BuildOptions) (dir contents : String)
    (so : SolveOpt) (hfetch : env.FetchAndExtract opts.Context dir = .ok contents) :
    (buildModify env opts dir so).1.Exports = so.Exports ++ opts.Images.map pushExport := by
  unfold buildModify
  simp only [hfetch, foldl_pushExport]
  cases opts.DisableCacheExport <;> cases opts.DisableCacheImport <;>
    cases opts.Images with
  | nil => simp
  | cons image rest =>
    simp only [Bool.not_false, Bool.not_true, if_true, Bool.false_eq_true, if_false]
    try split
    all_goals simp

theorem Build_of_modify (env : BuildEnv) (auth : String) (opts : BuildOptions) (dir : String)
    (hdir : env.MkdirTemp = .ok dir) :
    Build env auth opts
      = match buildModify env opts dir (newSolveOpt auth) with
        | (_, .error err) => ⟨[], [dir], .error err⟩
        | (_, .panic msg) => ⟨[], [dir], .panic msg⟩
        | (solveOpt, .ok) => ⟨[solveOpt], [dir], runSolve env solveOpt⟩ := by
  simp [Build, solveWith, hdir]

theorem buildModify_ok (env : BuildEnv) (opts : BuildOptions) (dir contents : String)
    (so : SolveOpt) (hfetch : env.FetchAndExtract opts.Context dir = .ok contents)
    (h : opts.DisableCacheImport = true ∨
      ∃ image rest named, opts.Images = image :: rest ∧
        reference.ParseNormalizedNamed image = .ok named) :
    (buildModify env opts dir so).2 = .ok := by
  unfold buildModify
  simp only [hfetch]
  rcases h with h | ⟨image, rest, named, h1, h2⟩
  · simp [h]
  · cases hd : opts.DisableCacheImport
    · simp [h1, h2]
    · simp

/-- Claim C7.  When the temporary directory is created and the context fetch succeeds,
the solve request `Build` assembles has exactly one export entry per image, in the
order of `Images`: entry `i` is an image export with `push = "true"` and
`name = Images[i]`.  Every request `Build` submits is that request, and it is
submitted whenever cache import is disabled or the first image parses. -/
theorem build_exports_one_per_image (env : BuildEnv) (auth : String) (opts : BuildOptions)
    (dir contents : String) (hdir : env.MkdirTemp = .ok dir)
    (hfetch : env.FetchAndExtract opts.Context dir = .ok contents) :
    (buildModify env opts dir (newSolveOpt auth)).1.Exports
      = opts.Images.map (fun name =>
          ({ Typ := "image", Attrs := [("push", "true"), ("name", name)], Output := false }
            : ExportEntry)) ∧
    (buildModify env opts dir (newSolveOpt auth)).1.Exports.length = opts.Images.length ∧
    (∀ (i : Nat) (name : String), opts.Images[i]? = some name →
      (buildModify env opts dir (newSolveOpt auth)).1.Exports[i]?
        = some { Typ := "image", Attrs := [("push", "true"), ("name", name)], Output := false }) ∧
    (∀ so ∈ (Build env auth opts).submitted,
      so = (buildModify env opts dir (newSolveOpt auth)).1) ∧
    ((opts.DisableCacheImport = true ∨
        ∃ image rest named, opts.Images = image :: rest ∧
          reference.ParseNormalizedNamed image = .ok named) →
      (Build env auth opts).submitted = [(buildModify env opts dir (newSolveOpt auth)).1]) := by
  have hE := buildModify_exports env opts dir contents (newSolveOpt auth) hfetch
  have hE2 : (buildModify env opts dir (newSolveOpt auth)).1.Exports
      = opts.Images.map (fun name =>
          ({ Typ := "image", Attrs := [("push", "true"), ("name", name)], Output := false }
            : ExportEntry)) := by
    rw [hE]
    simp [newSolveOpt]
    intro a _
    rfl
  refine ⟨hE2, by rw [hE2]; simp, ?_, ?_, ?_⟩
  · intro i name hi
    rw [hE2]
    simp [hi]
  · intro so hso
    rw [Build_of_modify env auth opts dir hdir] at hso
    rcases hm : buildModify env opts dir (newSolveOpt auth) with ⟨so2, r⟩
    rw [hm] at hso
    cases r <;> simp at hso
    exact hso
  · intro h
    have hok := buildModify_ok env opts dir contents (newSolveOpt auth) hfetch h
    rw [Build_of_modify env auth opts dir hdir]
    rcases hm : buildModify env opts dir (newSolveOpt auth) with ⟨so2, r⟩
    rw [hm] at hok
    simp only at hok
    subst hok
    rfl

/-- C7 on two images: two push exports, in order. -/
theorem build_exports_one_per_image_witness :
    okBuildEnv.MkdirTemp = .ok "/tmp/hephaestus-build-1" ∧
    (Build okBuildEnv "/etc/docker" ⟨"https://ctx/archive.tgz", ["reg.example.com/ns/app:tag",
        "reg.example.com/ns/app:latest"], [], false, false⟩).submitted.map (fun so => so.Exports)
      = [[⟨"image", [("push", "true"), ("name", "reg.example.com/ns/app:tag")], false⟩,
          ⟨"image", [("push", "true"), ("name", "reg.example.com/ns/app:latest")], false⟩]] := by
  have h := build_exports_one_per_image okBuildEnv "/etc/docker"
    ⟨"https://ctx/archive.tgz", ["reg.example.com/ns/app:tag", "reg.example.com/ns/app:latest"],
      [], false, false⟩ "/tmp/hephaestus-build-1" "/tmp/hephaestus-build-1/contents" rfl rfl
  refine ⟨rfl, ?_⟩
  rw [h.2.2.2.2 (Or.inr ⟨_, _, ⟨"reg.example.com", "ns/app", "tag", ""⟩, rfl, by decide⟩)]
  simp only [List.map_cons, List.map_nil, h.1]

/-- Claim C6.  When the temporary directory is created, the context fetch succeeds and
the first image parses, `Build` submits one solve request; with cache import
enabled it has exactly one cache-import entry, of type `registry`, whose `ref` is
the repository name of the first image (its normalized name without tag and
digest), whatever the other images are; with cache import disabled it has none. -/
theorem build_cache_import_from_first_image (env : BuildEnv) (auth : String)
    (opts : BuildOptions) (dir contents image : String) (rest : List String)
    (named : reference.Named) (hdir : env.MkdirTemp = .ok dir)
    (hfetch : env.FetchAndExtract opts.Context dir = .ok contents)
    (himages : opts.Images = image :: rest)
    (hparse : reference.ParseNormalizedNamed image = .ok named) :
    ∃ so, (Build env auth opts).submitted = [so] ∧
      (opts.DisableCacheImport = false →
        so.CacheImports = [{ Typ := "registry", Attrs := [("ref", named.Name)] }]) ∧
      (opts.DisableCacheImport = true → so.CacheImports = []) := by
  refine ⟨(buildModify env opts dir (newSolveOpt auth)).1, ?_, ?_, ?_⟩
  · have hok := buildModify_ok env opts dir contents (newSolveOpt auth) hfetch
      (Or.inr ⟨image, rest, named, himages, hparse⟩)
    rw [Build_of_modify env auth opts dir hdir]
    rcases hm : buildModify env opts dir (newSolveOpt auth) with ⟨so2, r⟩
    rw [hm] at hok
    simp only at hok
    subst hok
    rfl
  · intro hd
    unfold buildModify
    simp only [hfetch, foldl_pushExport, hd, himages, hparse]
    cases opts.DisableCacheExport <;> simp
  · intro hd
    unfold buildModify
    simp only [hfetch, foldl_pushExport, hd]
    cases opts.DisableCacheExport <;> simp [newSolveOpt]

/-- C6 on `Images = ["reg.example.com/ns/app:tag"]`: the cache-import reference is
`reg.example.com/ns/app`. -/
theorem build_cache_import_from_first_image_witness :
    reference.ParseNormalizedNamed "reg.example.com/ns/app:tag"
      = .ok ⟨"reg.example.com", "ns/app", "tag", ""⟩ ∧
    (Build okBuildEnv "/etc/docker"
        ⟨"https://ctx/archive.tgz", ["reg.example.com/ns/app:tag"], [], false, false⟩).submitted.map
        (fun so => so.CacheImports)
      = [[⟨"registry", [("ref", "reg.example.com/ns/app")]⟩]] := by
  have hp : reference.ParseNormalizedNamed "reg.example.com/ns/app:tag"
      = .ok ⟨"reg.example.com", "ns/app", "tag", ""⟩ := by decide
  obtain ⟨so, h1, h2, -⟩ := build_cache_import_from_first_image okBuildEnv "/etc/docker"
    ⟨"https://ctx/archive.tgz", ["reg.example.com/ns/app:tag"], [], false, false⟩
    "/tmp/hephaestus-build-1" "/tmp/hephaestus-build-1/contents" "reg.example.com/ns/app:tag" []
    ⟨"reg.example.com", "ns/app", "tag", ""⟩ rfl rfl rfl hp
  refine ⟨hp, ?_⟩
  rw [h1]
  simp only [List.map_cons, List.map_nil, h2 rfl]
  decide

/-! ## Disabled messaging and empty image lists -/

/-- Claim C4.  With the generated default configuration (messaging disabled, AMQP
section unset) `Reconcile` does not return: line 45 reads `c.cfg.AMQP.URL` before
the `Enabled` check and panics, for every object and whatever the Kafka section
holds.  With the AMQP section set, the disabled call returns success with an empty
trace. -/
theorem reconcile_disabled_unset_amqp_panics (env : Env) (obj : ImageBuild)
    (kafka : Option KafkaMessaging) (amqp : AMQPMessaging) :
    GenerateDefaults.Messaging = { Enabled := false, AMQP := none, Kafka := none } ∧
    Reconcile env GenerateDefaults.Messaging obj
      = ⟨[], .panic "invalid memory address or nil pointer dereference"⟩ ∧
    Reconcile env { Enabled := false, AMQP := none, Kafka := kafka } obj
      = ⟨[], .panic "invalid memory address or nil pointer dereference"⟩ ∧
    Reconcile env { Enabled := false, AMQP := some amqp, Kafka := kafka } obj = ⟨[], .ok⟩ :=
  ⟨rfl, rfl, rfl, rfl⟩

/-- Claim C9.  With an empty `Images` list `Build` returns no validation error: when
cache import is enabled it panics on `opts.Images[0]` after the context was fetched,
and when cache import is disabled it submits a solve request without export
entries and returns what the solve returns. -/
theorem build_empty_images_unguarded (auth context : String) (args : List String)
    (disableCacheExport : Bool) :
    (Build okBuildEnv auth ⟨context, [], args, disableCacheExport, false⟩).result
      = .panic "index out of range [0] with length 0" ∧
    (Build okBuildEnv auth ⟨context, [], args, disableCacheExport, false⟩).submitted = [] ∧
    (Build okBuildEnv auth ⟨context, [], args, disableCacheExport, true⟩).result = .ok ∧
    (Build okBuildEnv auth ⟨context, [], args, disableCacheExport, true⟩).submitted.map
        (fun so => so.Exports) = [[]] := by
  cases disableCacheExport <;> exact ⟨rfl, rfl, rfl, rfl⟩

/-! ## Returned errors -/

/-- Claim C10 (amended).  Every failing step of `Reconcile` ends the call with a non-nil
error that carries the error of the step: wrapped with a message naming the
operation for the image parse and the patch generation, and returned as it is for
the broker connect, the object link, the message marshal, the publish and the patch
apply (the error of the deferred close is logged only).  In `Build` and `Cache` the
errors of the temporary directory, of the dockerfile write and of the solve are
wrapped, those of the context fetch and of the image parse are returned as they
are. -/
theorem failing_step_error_is_returned (env : Env) (cfg : Messaging) (obj : ImageBuild)
    (benv : BuildEnv) (auth : String) (opts : BuildOptions) (cacheImage : String) :
    (∀ ev ∈ (Reconcile env cfg obj).trace, ∀ e, ev.err = some e → ev.step ≠ .close →
      (Reconcile env cfg obj).result = .error
        (match ev.step with
          | .parseImage _ image => .wrap ("parsing image name " ++ quote image ++ " failed") e
          | .generatePatch _ _ => .wrap "could not generate transition patch" e
          | _ => e)) ∧
    (∀ e, benv.MkdirTemp = .error e →
      (Build benv auth opts).result = .error (.wrap "failed to create build dir" e) ∧
      (Cache benv auth cacheImage).result = .error (.wrap "failed to create build dir" e)) ∧
    (∀ dir e, benv.MkdirTemp = .ok dir → benv.FetchAndExtract opts.Context dir = .error e →
      (Build benv auth opts).result = .error e) ∧
    (∀ dir contents image rest e, benv.MkdirTemp = .ok dir →
      benv.FetchAndExtract opts.Context dir = .ok contents →
      opts.DisableCacheImport = false → opts.Images = image :: rest →
      reference.ParseNormalizedNamed image = .error e →
      (Build benv auth opts).result = .error e) ∧
    (∀ dir e, benv.MkdirTemp = .ok dir →
      benv.WriteFile (benv.filepathJoin dir "Dockerfile") ("FROM " ++ cacheImage) = some e →
      (Cache benv auth cacheImage).result = .error (.wrap "failed to create dockerfile" e)) ∧
    (∀ so e, so ∈ (Build benv auth opts).submitted → benv.Solve so = some e →
      (Build benv auth opts).result = .error (.wrap "buildkit solve issue" e)) ∧
    (∀ so e, so ∈ (Cache benv auth cacheImage).submitted → benv.Solve so = some e →
      (Cache benv auth cacheImage).result = .error (.wrap "buildkit solve issue" e)) := by
  have hret : ∀ (s : Step) (e : GoError),
      (match s with
        | .parseImage _ image => GoError.wrap ("parsing image name " ++ quote image ++ " failed") e
        | .generatePatch _ _ => .wrap "could not generate transition patch" e
        | _ => e) = returnedError s e := by
    intro s e
    cases s <;> rfl
  refine ⟨?_, ?_, ?_, ?_, ?_, ?_, ?_⟩
  · intro ev hev e he hc
    rw [hret]
    rcases Reconcile_cases env cfg obj with ⟨-, hr⟩ | ⟨a, -, -, hr⟩ | ⟨a, e1, -, -, -, hr⟩ |
      ⟨amqp, -, -, -, hr⟩
    · rw [hr] at hev; cases hev
    · rw [hr] at hev; cases hev
    · rw [hr] at hev ⊢
      simp at hev
      subst hev
      simp at he
      subst he
      rfl
    · rw [hr] at hev ⊢
      simp at hev
      rcases hev with hev | hev | hev
      · subst hev; simp at he
      · rcases runUntilError_shape env obj (publishOptions amqp obj)
          (unprocessed 0 obj.Status.Transitions) with ⟨-, h2, -, -⟩ |
          ⟨done, p, rest, init, ev0, e0, -, h2, h3, h4, -, h6, -, -⟩
        · have := h2 ev hev
          rw [this] at he
          cases he
        · simp only [loopRun] at hev ⊢
          rw [h2] at hev
          rcases List.mem_append.1 hev with hm | hm
          · have := h3 ev hm
            rw [this] at he
            cases he
          · have := List.mem_singleton.1 hm
            subst this
            rw [h4] at he
            cases he
            rw [h6]
            rfl
      · subst hev; simp at hc
  · intro e he
    simp [Build, Cache, solveWith, he]
  · intro dir e hd hf
    simp [Build, solveWith, hd, buildModify, hf]
  · intro dir contents image rest e hd hf hdis himg hp
    simp [Build, solveWith, hd, buildModify, hf, hdis, himg, hp]
  · intro dir e hd hw
    simp [Cache, solveWith, hd, cacheModify, hw]
  · intro so e hso hs
    unfold Build solveWith at hso ⊢
    cases hd : benv.MkdirTemp with
    | error e1 => simp [hd] at hso
    | ok dir =>
      simp only [hd] at hso ⊢
      rcases hm : buildModify benv opts dir (newSolveOpt auth) with ⟨so2, r⟩
      rw [hm] at hso
      cases r <;> simp at hso
      subst hso
      simp [runSolve, hs]
  · intro so e hso hs
    unfold Cache solveWith at hso ⊢
    cases hd : benv.MkdirTemp with
    | error e1 => simp [hd] at hso
    | ok dir =>
      simp only [hd] at hso ⊢
      rcases hm : cacheModify benv cacheImage dir (newSolveOpt auth) with ⟨so2, r⟩
      rw [hm] at hso
      cases r <;> simp at hso
      subst hso
      simp [runSolve, hs]

/-- A failing broker connect and a failing context fetch are returned as they are,
not wrapped with a message naming the operation. -/
theorem connect_and_fetch_errors_are_bare :
    (⟨.connect "amqp://broker:5672", some (.base "dial tcp: connection refused")⟩ : Event)
      ∈ (Reconcile connectFails sampleCfg sampleObj).trace ∧
    (Reconcile connectFails sampleCfg sampleObj).result
      = .error (.base "dial tcp: connection refused") ∧
    (GoError.base "dial tcp: connection refused").isWrapped = false ∧
    (Build fetchFails "/etc/docker" ⟨"https://ctx/archive.tgz", ["reg.example.com/ns/app:tag"],
        [], false, false⟩).result = .error (.base "context fetch: 404") ∧
    (GoError.base "context fetch: 404").isWrapped = false := by
  refine ⟨?_, ?_, rfl, ?_, rfl⟩ <;> decide

/-- The amended C10 on the sample run whose publish of index 2 fails, and on a build
whose context fetch fails. -/
theorem failing_step_error_is_returned_witness :
    (Reconcile publishFailsAt2 sampleCfg sampleObj).result = .error (.base "channel closed") ∧
    (Build fetchFails "/etc/docker" ⟨"https://ctx/archive.tgz", ["reg.example.com/ns/app:tag"],
        [], false, false⟩).result = .error (.base "context fetch: 404") := by
  have h := failing_step_error_is_returned publishFailsAt2 sampleCfg sampleObj fetchFails
    "/etc/docker" ⟨"https://ctx/archive.tgz", ["reg.example.com/ns/app:tag"], [], false, false⟩
    "alpine"
  exact ⟨h.1 ⟨.publish 2 ⟨"hephaestus", "builds", "application/json", some sampleMessage2⟩,
      some (.base "channel closed")⟩ (by decide) (.base "channel closed") rfl (by simp),
    h.2.2.1 "/tmp/hephaestus-build-1" (.base "context fetch: 404") rfl rfl⟩

end Hephaestus
